import Mathlib

/-!
# Verification of the fast-trips path-finding core

A shallow embedding, in Lean 4, of the C++ path-finding core of the
fast-trips repository (`src/pathfinder.cpp` compilation unit and
`src/LabelStopQueue.h`), together with proofs of the specified properties.

Numeric `double` values are modelled by a linear ordered field: the
components that use only field arithmetic and comparisons (the label-stop
queue, the cost tally, the schedule window filter, the deterministic
transfer relaxation) are embedded generically over `[LinearOrderedField α]`
so that they can be evaluated at `ℚ` for concrete witnesses; the components
that use `exp`/`log` (hyperpath cost aggregation and the hyperpath search
pipeline) are embedded over `ℝ` with `Real.exp`/`Real.log`.

`std::map` containers are modelled by association lists (`alookup`/`aset`),
which record key presence exactly as the C++ maps do (`find` vs
`operator[]` default-insertion is modelled explicitly at each use site).
-/

namespace FastTrips

/-- Association-list lookup; models `std::map::find` (first matching key). -/
def alookup {κ β : Type} [DecidableEq κ] : List (κ × β) → κ → Option β
  | [], _ => none
  | (k, v) :: rest, key => if k = key then some v else alookup rest key

/-- Association-list insert-or-replace; models assignment through
`std::map::operator[]` (replaces the existing entry for the key, else appends). -/
def aset {κ β : Type} [DecidableEq κ] : List (κ × β) → κ → β → List (κ × β)
  | [], key, v => [(key, v)]
  | (k, w) :: rest, key, v =>
      if k = key then (key, v) :: rest else (k, w) :: aset rest key v

/-- Lookup with a default; models `std::map::operator[]` read of a
possibly-absent key (which default-constructs). -/
def alookupD {κ β : Type} [DecidableEq κ] (m : List (κ × β)) (key : κ) (d : β) : β :=
  (alookup m key).getD d

/-! ## The Label-Stop Queue (`src/LabelStopQueue.h`) -/

/-- `fasttrips::LabelStop`: a label and a stop id, stored in the priority queue. -/
structure LabelStop (α : Type) where
  label : α
  stop_id : Int
deriving DecidableEq

/-- `fasttrips::LabelStopQueue::LabelCount`: per-stop bookkeeping entry. -/
structure LabelCount (α : Type) where
  label : α
  valid : Bool
  count : Int
deriving DecidableEq

/-- The state of a `fasttrips::LabelStopQueue`: the underlying priority-queue
contents (as a list of entries, treated as a multiset with a computed top),
the per-stop bookkeeping map, and the count of valid entries. -/
structure LSQ (α : Type) where
  heap : List (LabelStop α)
  map : List (Int × LabelCount α)
  valid_count : Int
deriving DecidableEq

/-- The freshly constructed queue (`LabelStopQueue() : valid_count_(0)`). -/
def LSQ.init {α : Type} : LSQ α := ⟨[], [], 0⟩

/-- The priority order of `LabelStopCompare`: the queue surfaces the entry with
the smallest label, ties broken by the smallest stop id.  `lsBefore a b` holds
when `a` is surfaced no later than `b`. -/
def lsBefore {α : Type} [LinearOrder α] (a b : LabelStop α) : Bool :=
  if a.label < b.label then true
  else if b.label < a.label then false
  else a.stop_id ≤ b.stop_id

/-- `labelstop_priority_queue_.top()`: the minimum entry with respect to
`lsBefore` (the element `std::priority_queue` surfaces under
`LabelStopCompare`), or `none` on an empty queue. -/
def heapTop {α : Type} [LinearOrder α] : List (LabelStop α) → Option (LabelStop α)
  | [] => none
  | e :: rest =>
      match heapTop rest with
      | none => some e
      | some m => some (if lsBefore e m then e else m)

/-- `labelstop_priority_queue_.pop()` after `top()` returned `x`: remove one
occurrence of the value `x` from the queue contents. -/
def removeOne {α : Type} [DecidableEq α] : List (LabelStop α) → LabelStop α → List (LabelStop α)
  | [], _ => []
  | e :: rest, x => if e = x then rest else e :: removeOne rest x

/-- `LabelStopQueue::push`, translated clause for clause from the source. -/
def LSQ.push {α : Type} [LinearOrder α] (q : LSQ α) (val : LabelStop α) : LSQ α :=
  match alookup q.map val.stop_id with
  | none =>
      -- the stop is not in here: insert, record {label, valid, count 1}
      { heap := val :: q.heap
        map := aset q.map val.stop_id ⟨val.label, true, 1⟩
        valid_count := q.valid_count + 1 }
  | some lc =>
      if lc.valid = false then
        -- not valid in the queue: reinsert and revalidate
        { heap := val :: q.heap
          map := aset q.map val.stop_id ⟨val.label, true, lc.count + 1⟩
          valid_count := q.valid_count + 1 }
      else if val.label < lc.label then
        -- valid with a bigger remembered label: insert, update remembered label
        { heap := val :: q.heap
          map := aset q.map val.stop_id ⟨val.label, lc.valid, lc.count + 1⟩
          valid_count := q.valid_count }
      else
        -- otherwise the label is bigger: drop the push
        q

/-- The possible outcomes of `LabelStopQueue::pop_top`: a returned entry with
the post-state, the two `LabelStopQueueError` fatal branches, or the crash the
source comments warn about when the underlying heap is exhausted. -/
inductive PopResult (α : Type) where
  | ok (ls : LabelStop α) (q : LSQ α)
  | fatal1
  | fatal2
  | crash
deriving DecidableEq

/-- The loop body of `LabelStopQueue::pop_top`, with explicit fuel (each
iteration removes one entry from the underlying heap, so any fuel exceeding
the heap size is enough; `crash` models popping an empty heap). -/
def popTopFuel {α : Type} [LinearOrder α] : Nat → LSQ α → PopResult α
  | 0, _ => .crash
  | fuel + 1, q =>
      match heapTop q.heap with
      | none => .crash
      | some ls =>
          match alookup q.map ls.stop_id with
          | none => .fatal1  -- FATAL ERROR 1: no count info
          | some lc =>
              if lc.count ≤ 0 then .fatal2  -- FATAL ERROR 2: count not positive
              else if lc.valid = false then
                -- stale (invalid): discard and continue
                popTopFuel fuel
                  { heap := removeOne q.heap ls
                    map := aset q.map ls.stop_id ⟨lc.label, lc.valid, lc.count - 1⟩
                    valid_count := q.valid_count }
              else if lc.label ≠ ls.label then
                -- stale (label mismatch): discard and continue
                popTopFuel fuel
                  { heap := removeOne q.heap ls
                    map := aset q.map ls.stop_id ⟨lc.label, lc.valid, lc.count - 1⟩
                    valid_count := q.valid_count }
              else
                -- the valid one: return it, invalidate, decrement counters
                .ok ls
                  { heap := removeOne q.heap ls
                    map := aset q.map ls.stop_id ⟨lc.label, false, lc.count - 1⟩
                    valid_count := q.valid_count - 1 }

/-- `LabelStopQueue::pop_top`. -/
def LSQ.popTop {α : Type} [LinearOrder α] (q : LSQ α) : PopResult α :=
  popTopFuel (q.heap.length + 1) q

/-- `LabelStopQueue::size`: counts only valid entries. -/
def LSQ.size {α : Type} (q : LSQ α) : Int := q.valid_count

/-- `LabelStopQueue::empty`: no valid entries. -/
def LSQ.isEmpty {α : Type} (q : LSQ α) : Bool := q.valid_count = 0

/-- Number of heap entries carrying the given stop id. -/
def countStop {α : Type} [DecidableEq α] (heap : List (LabelStop α)) (s : Int) : Int :=
  ((heap.filter (fun e => e.stop_id = s)).length : Int)

/-- Number of bookkeeping entries marked valid. -/
def countValid {α : Type} (m : List (Int × LabelCount α)) : Int :=
  ((m.filter (fun kv => kv.2.valid)).length : Int)

/-- The internal consistency invariant of the label-stop queue: every heap
entry has bookkeeping, every bookkeeping count equals the number of heap
instances of that stop, every valid stop has a heap entry carrying exactly its
remembered label, and `valid_count_` counts the valid stops. -/
def LSQ.Inv {α : Type} [LinearOrder α] (q : LSQ α) : Prop :=
  (q.map.map Prod.fst).Nodup ∧
  (∀ e ∈ q.heap, (alookup q.map e.stop_id).isSome) ∧
  (∀ s lc, alookup q.map s = some lc →
      lc.count = countStop q.heap s ∧
      (lc.valid = true → LabelStop.mk lc.label s ∈ q.heap)) ∧
  q.valid_count = countValid q.map

/-- Queue states reachable by a sequence of `push` and (successful) `pop_top`
operations from a freshly constructed queue. -/
inductive LSQ.Reachable {α : Type} [LinearOrder α] : LSQ α → Prop where
  | init : LSQ.Reachable LSQ.init
  | push (q : LSQ α) (val : LabelStop α) :
      LSQ.Reachable q → LSQ.Reachable (q.push val)
  | pop (q q' : LSQ α) (ls : LabelStop α) :
      LSQ.Reachable q → q.popTop = .ok ls q' → LSQ.Reachable q'

/-! ## Cost tally (`PathFinder::tallyLinkCost`) -/

/-- `PathFinder::tallyLinkCost`: iterate through the weights, look up each
weight's attribute, skip the term (with a warning, not modelled) when the
attribute is missing, and accumulate `weight × attribute`. -/
def tallyLinkCost {α : Type} [LinearOrderedField α]
    (weights : List (String × α)) (attributes : List (String × α)) : α :=
  weights.foldl
    (fun cost iw =>
      match alookup attributes iw.1 with
      | none => cost          -- "NO ATTRIBUTE CALLED ..." : warn and skip
      | some av => cost + iw.2 * av)
    0

/-! ## Trip-stop-times and the schedule window (`PathFinder::getTripsWithinTime`) -/

/-- `fasttrips::TripStopTime`: `(trip id, sequence, stop id, arrive, depart)`. -/
structure TripStopTime (α : Type) where
  trip_id : Int
  seq : Int
  stop_id : Int
  arrive_time : α
  depart_time : α
deriving DecidableEq

/-- The per-entry test of `PathFinder::getTripsWithinTime`, exactly as in the
source: outbound keeps `arrive_time_ ≤ timepoint ∧ arrive_time_ > timepoint −
TIME_WINDOW_`; inbound keeps `depart_time_ ≥ timepoint ∧ depart_time_ <
timepoint + TIME_WINDOW_`. -/
def tstWithin {α : Type} [LinearOrderedField α]
    (TW : α) (outbound : Bool) (timepoint : α) (tst : TripStopTime α) : Bool :=
  if outbound then
    decide (tst.arrive_time ≤ timepoint) && decide (tst.arrive_time > timepoint - TW)
  else
    decide (tst.depart_time ≥ timepoint) && decide (tst.depart_time < timepoint + TW)

/-- `PathFinder::getTripsWithinTime`: the trip-stop-times registered at the
stop whose event time falls in the direction-appropriate window around
`timepoint`; empty when the stop has no trips. -/
def getTripsWithinTime {α : Type} [LinearOrderedField α]
    (stop_trip_times : List (Int × List (TripStopTime α))) (TW : α)
    (stop_id : Int) (outbound : Bool) (timepoint : α) : List (TripStopTime α) :=
  match alookup stop_trip_times stop_id with
  | none => []
  | some tsts => tsts.filter (tstWithin TW outbound timepoint)

/-! ## Deterministic outbound transfer relaxation with bump-wait
(`PathFinder::updateStopStatesForTransfers`, deterministic branch) -/

/-- The deterministic per-transfer computation of
`PathFinder::updateStopStatesForTransfers` for the outbound direction
(`dir_factor = 1`), lines computing `deparr_time`, `link_cost`, `cost` and the
bump-wait adjustment.  Inputs are the current stop's front state fields
(`current_trip`, `cur_seq`, `cur_deparr = deparr_time_`), the popped label,
the current stop id, the transfer walk time, and the bump-wait table.  Returns
`none` when the `continue` branch skips the candidate, otherwise the
candidate's `(deparr_time, link_cost, cost)`. -/
def transferDetOutbound {α : Type} [LinearOrderedField α]
    (TW BB : α) (bump_wait : List ((Int × Int × Int) × α))
    (current_trip cur_seq cur_stop : Int) (latest_dep : α) (cur_deparr : α)
    (label : α) (transfer_time : α) : Option (α × α × α) :=
  -- outbound: departure time = latest departure − transfer
  let deparr_time := latest_dep - transfer_time
  let link_cost := transfer_time
  let cost := label + link_cost
  match alookup bump_wait (current_trip, cur_seq, cur_stop) with
  | none => some (deparr_time, link_cost, cost)
  | some latest_time =>
      if deparr_time - TW > latest_time then
        none  -- we can't come in time
      else
        -- leave earlier: add the bump penalty and shift the departure
        some (latest_time - transfer_time - BB, link_cost,
              cost + (cur_deparr - latest_time) + BB)

/-! ## Data model of the path finder (`pathfinder.cpp`, types from `pathfinder.h`) -/

/-- Modelled from the spec: the link-mode constants (`MODE_ACCESS`,
`MODE_EGRESS`, `MODE_TRANSFER`, `MODE_TRANSIT`) are integer sentinels declared
in `pathfinder.h`, which is not part of the sources; the spec fixes only that
they form a closed enumeration of distinct values (§3).  Distinct concrete
values are chosen here. -/
def MODE_ACCESS : Int := -100

/-- Modelled from the spec: see `MODE_ACCESS`. -/
def MODE_EGRESS : Int := -101

/-- Modelled from the spec: see `MODE_ACCESS`. -/
def MODE_TRANSFER : Int := -102

/-- Modelled from the spec: see `MODE_ACCESS`. -/
def MODE_TRANSIT : Int := -103

/-- Modelled from the spec: `is_trip(m) ≡ m = TRANSIT` (§3); the definition
lives in the missing header `pathfinder.h`. -/
def isTrip (m : Int) : Bool := m = MODE_TRANSIT

/-- `PathFinder::MAX_COST = 999999`. -/
def MAX_COST : ℝ := 999999

/-- `PathFinder::MAX_TIME = 999.999`; `MAX_DATETIME` is used as the initial
anchor in `finalizeTazState` and equals `MAX_TIME`. -/
def MAX_DATETIME : ℝ := 999.999

/-- `fasttrips::StopState` (field order as in the source initializers). -/
structure StopState where
  deparr_time : ℝ
  deparr_mode : Int
  trip_id : Int
  stop_succpred : Int
  seq : Int
  seq_succpred : Int
  link_time : ℝ
  link_cost : ℝ
  cost : ℝ
  iteration : Int
  arrdep_time : ℝ

noncomputable instance : DecidableEq StopState := Classical.decEq _

/-- `fasttrips::HyperpathState`. -/
structure HyperpathState where
  latest_dep_earliest_arr : ℝ
  lder_trip_id : Int
  hyperpath_cost : ℝ
  process_count : Int

/-- `fasttrips::PathSpecification`. -/
structure PathSpecification where
  iteration : Int
  passenger_id : Int
  path_id : Int
  hyperpath : Bool
  origin_taz_id : Int
  destination_taz_id : Int
  outbound : Bool
  preferred_time : ℝ
  user_class : String
  access_mode : String
  transit_mode : String
  egress_mode : String

/-- The three in-out structures threaded through the labeling phase:
`StopStates stop_states`, `LabelStopQueue label_stop_queue`,
`HyperpathStopStates hyperpath_ss`. -/
structure SearchState where
  stop_states : List (Int × List StopState)
  label_stop_queue : LSQ ℝ
  hyperpath_ss : List (Int × HyperpathState)

/-- The stop-state identity test of `addStopState`'s substitution scan:
match on `(deparr_mode_, trip_id_, stop_succpred_, seq_succpred_)`. -/
def ssMatches (ss_check ss : StopState) : Bool :=
  decide (ss_check.deparr_mode = ss.deparr_mode) &&
  decide (ss_check.trip_id = ss.trip_id) &&
  decide (ss_check.stop_succpred = ss.stop_succpred) &&
  decide (ss_check.seq_succpred = ss.seq_succpred)

/-- The window-pruning test of `addStopState` (too early when outbound, too
late when inbound), relative to the anchor `lder`. -/
noncomputable def outsideWindowB (outbound : Bool) (TW lder t : ℝ) : Bool :=
  if outbound then decide (t < lder - TW) else decide (t > lder + TW)

/-- The sum `Σ exp(−θ·cᵢ)` accumulated by `addStopState` (and by
`calculateNonwalkLabel` and the samplers) over a list of costs. -/
noncomputable def hpSumExp (θ : ℝ) (costs : List ℝ) : ℝ :=
  (costs.map (fun c => Real.exp (-1 * θ * c))).sum

/-- The log-sum hyperpath cost `−(1/θ)·log(Σᵢ exp(−θ·cᵢ))` recomputed by
`addStopState` over the surviving stop states. -/
noncomputable def hpAgg (θ : ℝ) (costs : List ℝ) : ℝ :=
  (-1 / θ) * Real.log (hpSumExp θ costs)

/-- The rejection test of `addStopState` (hyperpath): the candidate is too
early (outbound) or too late (inbound) relative to the current anchor. -/
noncomputable def hypRejected (outbound : Bool) (TW : ℝ)
    (ss : StopState) (hss0 : HyperpathState) : Bool :=
  (outbound && decide (ss.deparr_time < hss0.latest_dep_earliest_arr - TW)) ||
  (!outbound && decide (ss.deparr_time > hss0.latest_dep_earliest_arr + TW))

/-- The anchor-extension test of `addStopState` (hyperpath): the candidate
departs later (outbound) / arrives earlier (inbound) than the anchor. -/
noncomputable def hypWindowMoved (outbound : Bool)
    (ss : StopState) (hss0 : HyperpathState) : Bool :=
  (outbound && decide (ss.deparr_time > hss0.latest_dep_earliest_arr)) ||
  (!outbound && decide (ss.deparr_time < hss0.latest_dep_earliest_arr))

/-- The hyperpath state after `addStopState`'s window block: the anchor and
its trip are overwritten when the candidate extends the window. -/
noncomputable def hypAnchorUpdate (outbound : Bool)
    (ss : StopState) (hss0 : HyperpathState) : HyperpathState :=
  if hypWindowMoved outbound ss hss0 then
    { hss0 with latest_dep_earliest_arr := ss.deparr_time, lder_trip_id := ss.trip_id }
  else hss0

/-- The substitution scan of `addStopState`: a state matching the incoming one
on `(deparr_mode, trip_id, stop_succpred, seq_succpred)` is overwritten in
place. -/
def hypSubstituted (states0 : List StopState) (ss : StopState) : List StopState :=
  states0.map (fun t => if ssMatches t ss then ss else t)

/-- Whether the substitution scan found a matching state. -/
def hypFound (states0 : List StopState) (ss : StopState) : Bool :=
  states0.any (fun t => ssMatches t ss)

/-- The window pruning of `addStopState`: drop the states now outside the
window around the (possibly updated) anchor `lder`. -/
noncomputable def hypSurvivors (outbound : Bool) (TW lder : ℝ)
    (states1 : List StopState) : List StopState :=
  states1.filter (fun t => !(outsideWindowB outbound TW lder t.deparr_time))

/-- The stop's state list after `addStopState`'s scan, pruning and (when no
match was found) appending of the incoming state. -/
noncomputable def hypFinalStates (outbound : Bool) (TW : ℝ) (ss : StopState)
    (hss1 : HyperpathState) (states0 : List StopState) : List StopState :=
  let survivors := hypSurvivors outbound TW hss1.latest_dep_earliest_arr
    (hypSubstituted states0 ss)
  if hypFound states0 ss then survivors else survivors ++ [ss]

/-- `PathFinder::addStopState`, translated clause for clause from the source.
`TW` is `TIME_WINDOW_` and `θ` is `STOCH_DISPERSION_`. -/
noncomputable def addStopState (ps : PathSpecification) (TW θ : ℝ)
    (stop_id : Int) (ss : StopState) (st : SearchState) : SearchState :=
  if ps.hyperpath = false then
    -- deterministic: insert if new, replace if the cost is strictly lower
    match alookupD st.stop_states stop_id [] with
    | [] =>
        { st with
          stop_states := aset st.stop_states stop_id [ss]
          label_stop_queue := st.label_stop_queue.push ⟨ss.cost, stop_id⟩ }
    | s0 :: rest =>
        if ss.cost < s0.cost then
          { st with
            stop_states := aset st.stop_states stop_id (ss :: rest)
            label_stop_queue := st.label_stop_queue.push ⟨ss.cost, stop_id⟩ }
        else st
  else
    match alookup st.hyperpath_ss stop_id with
    | none =>
        -- new stop: record the hyperpath state and push
        { stop_states := aset st.stop_states stop_id
            (alookupD st.stop_states stop_id [] ++ [ss])
          label_stop_queue := st.label_stop_queue.push ⟨ss.cost, stop_id⟩
          hyperpath_ss := aset st.hyperpath_ss stop_id
            ⟨ss.deparr_time, ss.trip_id, ss.cost, 0⟩ }
    | some hss0 =>
        -- is it too early (outbound) or too late (inbound)?
        let rejected : Bool := hypRejected ps.outbound TW ss hss0
        -- update latest departure time or earliest arrival time window
        let window_update : Bool := hypWindowMoved ps.outbound ss hss0
        let hss1 := hypAnchorUpdate ps.outbound ss hss0
        -- the queue label: ss.cost_, overridden by the window/cost updates
        let label1 : ℝ := if window_update then hss0.hyperpath_cost else ss.cost
        if rejected then
          { st with hyperpath_ss := aset st.hyperpath_ss stop_id hss1 }
        else
          let states0 := alookupD st.stop_states stop_id []
          -- substitution scan, window pruning, append when no match was found
          let final_states := hypFinalStates ps.outbound TW ss hss1 states0
          -- log-sum aggregation over the surviving states (plus the new one)
          let new_hp_cost := hpAgg θ (final_states.map StopState.cost)
          let cost_changed : Bool := decide (|new_hp_cost - hss1.hyperpath_cost| > 0.0001)
          let hss2 := if cost_changed then { hss1 with hyperpath_cost := new_hp_cost } else hss1
          let label2 : ℝ := if cost_changed then new_hp_cost else label1
          let update_state : Bool := window_update || cost_changed
          let st1 : SearchState :=
            { st with
              stop_states := aset st.stop_states stop_id final_states
              hyperpath_ss := aset st.hyperpath_ss stop_id hss2 }
          if update_state then
            { st1 with label_stop_queue := st.label_stop_queue.push ⟨label2, stop_id⟩ }
          else st1

/-- The direction-appropriate window membership of a (departure/arrival) time
relative to an anchor: outbound states may not be more than `TW` earlier than
the anchor, inbound states not more than `TW` later. -/
def windowOK (outbound : Bool) (TW lder t : ℝ) : Prop :=
  if outbound then lder - TW ≤ t else t ≤ lder + TW

/-- Store synchronisation (spec §3 invariant): a stop with no
`HyperpathState` holds no stop states. -/
def SearchState.Synced (st : SearchState) : Prop :=
  ∀ stop, alookup st.hyperpath_ss stop = none → alookupD st.stop_states stop [] = []

/-- The hyperpath window invariant (spec §3/§8): every stop state surviving
on a stop lies within `TIME_WINDOW` of that stop's anchor
`latest_dep_earliest_arr`, with the direction-appropriate inequality. -/
def SearchState.WindowInv (outbound : Bool) (TW : ℝ) (st : SearchState) : Prop :=
  ∀ stop hss, alookup st.hyperpath_ss stop = some hss →
    ∀ σ ∈ alookupD st.stop_states stop [],
      windowOK outbound TW hss.latest_dep_earliest_arr σ.deparr_time

/-! ## Network tables (`PathFinder` instance data) -/

/-- Attribute vectors (`fasttrips::Attributes`): attribute name → value. -/
abbrev Attributes := List (String × ℝ)

/-- Named weight vectors (`fasttrips::NamedWeights`): weight name → value. -/
abbrev NamedWeights := List (String × ℝ)

/-- `fasttrips::TripInfo`. -/
structure TripInfo where
  supply_mode_num : Int
  route_id : Int
  trip_attr : Attributes

/-- `fasttrips::UserClassMode`: key of the weight lookup. -/
structure UserClassMode where
  user_class : String
  demand_mode_type : Int
  demand_mode : String
deriving DecidableEq

/-- The read-only configuration and network tables of a `PathFinder`
instance, together with the platform constant `RAND_MAX` (used by the
probability integerisation). -/
structure PathFinderData where
  TIME_WINDOW : ℝ
  BUMP_BUFFER : ℝ
  STOCH_PATHSET_SIZE : Int
  STOCH_DISPERSION : ℝ
  STOCH_MAX_STOP_PROCESS_COUNT : Int
  RAND_MAX : Int
  transfer_supply_mode : Int
  taz_access_links : List (Int × List (Int × List (Int × Attributes)))
  transfer_links_o_d : List (Int × List (Int × Attributes))
  transfer_links_d_o : List (Int × List (Int × Attributes))
  trip_info : List (Int × TripInfo)
  trip_stop_times : List (Int × List (TripStopTime ℝ))
  stop_trip_times : List (Int × List (TripStopTime ℝ))
  weight_lookup : List (UserClassMode × List (Int × NamedWeights))
  bump_wait : List ((Int × Int × Int) × ℝ)

/-- A zero-filled stop state, standing in for reads the source leaves
undefined (default-constructed/garbage values). -/
def dummySS : StopState := ⟨0, 0, 0, 0, 0, 0, 0, 0, 0, 0, 0⟩

/-- A zero-filled hyperpath state (default value for `operator[]` reads of
absent keys, which the source never exercises on consistent stores). -/
def dummyHSS : HyperpathState := ⟨0, 0, 0, 0⟩

/-- First element of a list, or the given default: models unchecked
`front()` / `[0]` reads. -/
def headOr {β : Type} : List β → β → β
  | [], d => d
  | x :: _, _ => x

/-- The inclusive integer range `[a, b]` walked by the sequence loops. -/
def seqRange (a b : Int) : List Int :=
  (List.range (b - a + 1).toNat).map (fun i => a + (i : Int))

/-- `PathFinder::calculateNonwalkLabel`: log-sum over the states whose mode
is not egress/transfer/access; `MAX_COST` when the sum is zero. -/
noncomputable def calculateNonwalkLabel (θ : ℝ) (current_stop_state : List StopState) : ℝ :=
  let nonwalk := hpSumExp θ
    ((current_stop_state.filter
        (fun it => !(decide (it.deparr_mode = MODE_EGRESS) ||
                     decide (it.deparr_mode = MODE_TRANSFER) ||
                     decide (it.deparr_mode = MODE_ACCESS)))).map StopState.cost)
  if nonwalk = 0 then MAX_COST else (-1) / θ * Real.log nonwalk

/-- `PathFinder::initializeStopStates`: seed the search at the anchor TAZ's
access/egress links; `false` when the TAZ has no links or no weights exist for
the user class and access/egress demand mode (and finally when nothing was
queued). -/
noncomputable def initializeStopStates (pf : PathFinderData) (ps : PathSpecification)
    (st : SearchState) : Bool × SearchState :=
  let start_taz_id := if ps.outbound then ps.destination_taz_id else ps.origin_taz_id
  let dir_factor : ℝ := if ps.outbound then 1 else -1
  match alookup pf.taz_access_links start_taz_id with
  | none => (false, st)
  | some supply_links =>
      let ucm : UserClassMode :=
        ⟨ps.user_class, if ps.outbound then MODE_EGRESS else MODE_ACCESS,
         if ps.outbound then ps.egress_mode else ps.access_mode⟩
      match alookup pf.weight_lookup ucm with
      | none => (false, st)
      | some s2w =>
          let st' := s2w.foldl (fun st iter_s2w =>
            let supply_mode_num := iter_s2w.1
            match alookup supply_links supply_mode_num with
            | none => st
            | some links =>
                links.foldl (fun st link =>
                  let stop_id := link.1
                  let attr_time := alookupD link.2 "time_min" 0
                  -- outbound: departure time = destination − access
                  -- inbound:  arrival time   = origin      + access
                  let deparr_time := ps.preferred_time - attr_time * dir_factor
                  let link_attr := aset link.2 "preferred_delay_min" 0
                  let cost :=
                    if ps.hyperpath then tallyLinkCost iter_s2w.2 link_attr
                    else attr_time
                  let ss : StopState :=
                    ⟨deparr_time, if ps.outbound then MODE_EGRESS else MODE_ACCESS,
                     supply_mode_num, start_taz_id, -1, -1, attr_time, cost, cost, 0,
                     ps.preferred_time⟩
                  addStopState ps pf.TIME_WINDOW pf.STOCH_DISPERSION stop_id ss st) st) st
          (decide (st'.label_stop_queue.size > 0), st')

/-- The zero-walk transfer-penalty tally of `updateStopStatesForTrips`
(attributes `transfer_penalty = 1`, `walk_time_min = 0` against the transfer
weights); leaves the cost at 0 when no transfer weights are configured. -/
noncomputable def xferPenaltyCost (pf : PathFinderData) (ps : PathSpecification) : ℝ :=
  let xfer_attr : Attributes := aset (aset [] "transfer_penalty" 1) "walk_time_min" 0
  match alookup pf.weight_lookup ⟨ps.user_class, MODE_TRANSFER, "transfer"⟩ with
  | none => 0
  | some wl =>
      match alookup wl pf.transfer_supply_mode with
      | none => 0
      | some nw => tallyLinkCost nw xfer_attr

/-- `PathFinder::updateStopStatesForTransfers`, translated clause for clause
from the source. -/
noncomputable def updateStopStatesForTransfers (pf : PathFinderData) (ps : PathSpecification)
    (label_iteration : Int) (current_label_stop : LabelStop ℝ) (st : SearchState) : SearchState :=
  let dir_factor : ℝ := if ps.outbound then 1 else -1
  match alookupD st.stop_states current_label_stop.stop_id [] with
  | [] => st  -- the source reads `[0]` unguarded; the labeling loop guarantees nonempty
  | cs0 :: csrest =>
      let current_stop_state := cs0 :: csrest
      let current_mode := cs0.deparr_mode
      let current_trip := cs0.trip_id
      -- no transfer to/from access or egress; deterministic: no double walk
      if current_mode = MODE_EGRESS then st
      else if current_mode = MODE_ACCESS then st
      else if ps.hyperpath = false ∧ current_mode = MODE_TRANSFER then st
      else
        let latest_dep_earliest_arr :=
          if ps.hyperpath then
            (alookupD st.hyperpath_ss current_label_stop.stop_id dummyHSS).latest_dep_earliest_arr
          else cs0.deparr_time
        let nonwalk_label :=
          if ps.hyperpath then calculateNonwalkLabel pf.STOCH_DISPERSION current_stop_state else 0
        -- only reachable by transfer: don't transfer again
        if ps.hyperpath ∧ nonwalk_label = MAX_COST then st
        else
          let tmap :=
            if ps.outbound then alookup pf.transfer_links_d_o current_label_stop.stop_id
            else alookup pf.transfer_links_o_d current_label_stop.stop_id
          match tmap with
          | none => st
          | some transfers =>
              match alookup pf.weight_lookup ⟨ps.user_class, MODE_TRANSFER, "transfer"⟩ with
              | none => st
              | some sm2nw =>
                  match alookup sm2nw pf.transfer_supply_mode with
                  | none => st
                  | some transfer_weights =>
                      transfers.foldl (fun st transfer_it =>
                        let xfer_stop_id := transfer_it.1
                        let transfer_time := alookupD transfer_it.2 "time_min" 0
                        if ps.hyperpath then
                          let link_attr := aset transfer_it.2 "transfer_penalty" 1
                          let link_cost := tallyLinkCost transfer_weights link_attr
                          let cost := nonwalk_label + link_cost
                          addStopState ps pf.TIME_WINDOW pf.STOCH_DISPERSION xfer_stop_id
                            ⟨latest_dep_earliest_arr - transfer_time * dir_factor, MODE_TRANSFER,
                             1, current_label_stop.stop_id, -1, -1, transfer_time, link_cost,
                             cost, label_iteration, latest_dep_earliest_arr⟩ st
                        else
                          -- deterministic, with the outbound bump-wait adjustment;
                          -- the source rereads the front state through its live reference
                          let cs := headOr (alookupD st.stop_states current_label_stop.stop_id []) cs0
                          let result :=
                            if ps.outbound then
                              transferDetOutbound pf.TIME_WINDOW pf.BUMP_BUFFER pf.bump_wait
                                current_trip cs.seq current_label_stop.stop_id
                                latest_dep_earliest_arr cs.deparr_time
                                current_label_stop.label transfer_time
                            else
                              some (latest_dep_earliest_arr - transfer_time * dir_factor,
                                    transfer_time, current_label_stop.label + transfer_time)
                          match result with
                          | none => st
                          | some (deparr_time, link_cost, cost) =>
                              addStopState ps pf.TIME_WINDOW pf.STOCH_DISPERSION xfer_stop_id
                                ⟨deparr_time, MODE_TRANSFER, 1, current_label_stop.stop_id,
                                 -1, -1, transfer_time, link_cost, cost, label_iteration,
                                 latest_dep_earliest_arr⟩ st) st

/-- `PathFinder::updateStopStatesForTrips`, translated clause for clause from
the source. -/
noncomputable def updateStopStatesForTrips (pf : PathFinderData) (ps : PathSpecification)
    (label_iteration : Int) (current_label_stop : LabelStop ℝ) (st : SearchState) : SearchState :=
  let dir_factor : ℝ := if ps.outbound then 1 else -1
  match alookup pf.weight_lookup ⟨ps.user_class, MODE_TRANSIT, ps.transit_mode⟩ with
  | none => st
  | some iter_weights =>
      match alookupD st.stop_states current_label_stop.stop_id [] with
      | [] => st  -- the source reads `[0]` unguarded; the labeling loop guarantees nonempty
      | cs0 :: _ =>
          let current_mode := cs0.deparr_mode
          let current_trip_id := cs0.trip_id
          let latest_dep_earliest_arr :=
            if ps.hyperpath then
              (alookupD st.hyperpath_ss current_label_stop.stop_id dummyHSS).latest_dep_earliest_arr
            else cs0.deparr_time
          let relevant_trips :=
            getTripsWithinTime pf.stop_trip_times pf.TIME_WINDOW
              current_label_stop.stop_id ps.outbound latest_dep_earliest_arr
          relevant_trips.foldl (fun st it =>
            -- don't reuse the trip that determined the time boundary
            if ps.hyperpath ∧
               (alookupD st.hyperpath_ss current_label_stop.stop_id dummyHSS).lder_trip_id
                 = it.trip_id then st
            else
              match alookup pf.trip_info it.trip_id with
              | none => st  -- `trip_info_.find(...)->second` unchecked; info assumed present
              | some trip_info =>
                  match alookup iter_weights trip_info.supply_mode_num with
                  | none => st  -- supply mode not allowed for this user class / demand mode
                  | some named_weights =>
                      let arrdep_time := if ps.outbound then it.arrive_time else it.depart_time
                      let wait_time := (latest_dep_earliest_arr - arrdep_time) * dir_factor
                      -- deterministic path-finding: check capacities (bump-wait);
                      -- the source rereads the front state through its live reference
                      let cs := headOr (alookupD st.stop_states current_label_stop.stop_id []) cs0
                      let skip_for_bump : Bool :=
                        if ps.hyperpath = false then
                          let check_for_bump_wait : Int × Int × Int :=
                            if ps.outbound then (cs.trip_id, cs.seq, current_label_stop.stop_id)
                            else (it.trip_id, it.seq, current_label_stop.stop_id)
                          let arrive_time := if ps.outbound then arrdep_time else cs.deparr_time
                          match alookup pf.bump_wait check_for_bump_wait with
                          | none => false
                          | some latest_time =>
                              decide (arrive_time + 0.01 ≥ latest_time) &&
                              decide (cs.trip_id ≠ it.trip_id)
                        else false
                      if skip_for_bump then st
                      else
                        match alookup pf.trip_stop_times it.trip_id with
                        | none => st  -- asserted present in the source
                        | some possible_stops =>
                            let start_seq := if ps.outbound then 1 else it.seq + 1
                            let end_seq :=
                              if ps.outbound then it.seq - 1 else (possible_stops.length : Int)
                            (seqRange start_seq end_seq).foldl (fun st seq_num =>
                              match possible_stops.get? (seq_num - 1).toNat with
                              | none => st  -- `at()` on dense 1-based sequences
                              | some possible_board_alight =>
                                  let board_alight_stop := possible_board_alight.stop_id
                                  -- hyperpath: successor/predecessor can't be access or egress
                                  let skip_ae : Bool :=
                                    if ps.hyperpath then
                                      match alookup st.stop_states board_alight_stop with
                                      | none => false
                                      | some [] => false
                                      | some (p0 :: _) =>
                                          decide (p0.deparr_mode = MODE_ACCESS) ||
                                          decide (p0.deparr_mode = MODE_EGRESS)
                                    else false
                                  if skip_ae then st
                                  else
                                    let deparr_time0 :=
                                      if ps.outbound then possible_board_alight.depart_time
                                      else possible_board_alight.arrive_time
                                    -- the schedule crossed midnight
                                    let deparr_time :=
                                      if ps.outbound ∧ arrdep_time < deparr_time0 then
                                        deparr_time0 - 24 * 60
                                      else if ps.outbound = false ∧ deparr_time0 < arrdep_time then
                                        deparr_time0 + 24 * 60
                                      else deparr_time0
                                    let in_vehicle_time := (arrdep_time - deparr_time) * dir_factor
                                    let link_cost : ℝ :=
                                      if ps.hyperpath then
                                        let link_attr :=
                                          aset (aset trip_info.trip_attr
                                            "in_vehicle_time_min" in_vehicle_time)
                                            "wait_time_min" wait_time
                                        let is_pref_delay : Prop :=
                                          (ps.outbound = true ∧ current_mode = MODE_EGRESS) ∨
                                          (ps.outbound = false ∧ current_mode = MODE_ACCESS)
                                        let link_attr :=
                                          if is_pref_delay then aset link_attr "wait_time_min" 0
                                          else link_attr
                                        -- egress (outbound) / access (inbound): preferred delay
                                        let lc0 : ℝ :=
                                          if is_pref_delay then
                                            let delay_attr : Attributes :=
                                              aset (aset [] "time_min" 0)
                                                "preferred_delay_min" wait_time
                                            let delay_ucm : UserClassMode :=
                                              ⟨ps.user_class,
                                               if ps.outbound then MODE_EGRESS else MODE_ACCESS,
                                               if ps.outbound then ps.egress_mode else ps.access_mode⟩
                                            match alookup pf.weight_lookup delay_ucm with
                                            | none => 0
                                            | some d_s2w =>
                                                match alookup d_s2w current_trip_id with
                                                | none => 0
                                                | some dw => tallyLinkCost dw delay_attr
                                          -- zero-walk transfer: penalize (recomputed identically
                                          -- a second time below in the source)
                                          else if isTrip current_mode then xferPenaltyCost pf ps
                                          else 0
                                        let link_attr :=
                                          if current_mode = MODE_ACCESS ∨ current_mode = MODE_EGRESS
                                          then aset link_attr "transfer_penalty" (0 : ℝ)
                                          else aset link_attr "transfer_penalty" (1 : ℝ)
                                        let lc1 :=
                                          if isTrip current_mode then xferPenaltyCost pf ps else lc0
                                        lc1 + tallyLinkCost named_weights link_attr
                                      else in_vehicle_time + wait_time
                                    let cost : ℝ :=
                                      if ps.hyperpath then
                                        (alookupD st.hyperpath_ss current_label_stop.stop_id
                                          dummyHSS).hyperpath_cost + link_cost
                                      else cs.cost + link_cost
                                    addStopState ps pf.TIME_WINDOW pf.STOCH_DISPERSION
                                      board_alight_stop
                                      ⟨deparr_time, MODE_TRANSIT, possible_board_alight.trip_id,
                                       current_label_stop.stop_id, possible_board_alight.seq,
                                       it.seq, in_vehicle_time + wait_time, link_cost, cost,
                                       label_iteration, arrdep_time⟩ st) st) st

/-- The `while (!label_stop_queue.empty())` loop of `PathFinder::labelStops`,
with explicit fuel (the source loop has no intrinsic bound).  Accumulates the
label iteration counter and the maximum process count; a queue fatal error
terminates the search as the thrown `LabelStopQueueError` would. -/
noncomputable def labelStopsLoop (pf : PathFinderData) (ps : PathSpecification) :
    Nat → Int → LabelStop ℝ → Int → SearchState → Int × Int × SearchState
  | 0, label_iterations, _, max_process_count, st =>
      (label_iterations, max_process_count, st)
  | fuel + 1, label_iterations, last_label_stop, max_process_count, st =>
      if st.label_stop_queue.isEmpty then (label_iterations, max_process_count, st)
      else
        match st.label_stop_queue.popTop with
        | .ok current_label_stop q' =>
            let st := { st with label_stop_queue := q' }
            -- if we just processed this one, skip: it'll be a no-op
            if current_label_stop.stop_id = last_label_stop.stop_id then
              labelStopsLoop pf ps fuel label_iterations last_label_stop max_process_count st
            else if ps.hyperpath then
              let hss := alookupD st.hyperpath_ss current_label_stop.stop_id dummyHSS
              -- have we hit the configured limit?
              if pf.STOCH_MAX_STOP_PROCESS_COUNT > 0 ∧
                 hss.process_count = pf.STOCH_MAX_STOP_PROCESS_COUNT then
                labelStopsLoop pf ps fuel label_iterations last_label_stop max_process_count st
              else
                let hss := { hss with process_count := hss.process_count + 1 }
                let st := { st with
                  hyperpath_ss := aset st.hyperpath_ss current_label_stop.stop_id hss }
                let max_process_count := max max_process_count hss.process_count
                let st := updateStopStatesForTransfers pf ps label_iterations current_label_stop st
                let st := updateStopStatesForTrips pf ps label_iterations current_label_stop st
                labelStopsLoop pf ps fuel (label_iterations + 1) current_label_stop
                  max_process_count st
            else
              let st := updateStopStatesForTransfers pf ps label_iterations current_label_stop st
              let st := updateStopStatesForTrips pf ps label_iterations current_label_stop st
              labelStopsLoop pf ps fuel (label_iterations + 1) current_label_stop
                max_process_count st
        | _ => (label_iterations, max_process_count, st)

/-- `PathFinder::labelStops`: run the labeling loop from iteration 1; the
initial `last_label_stop` is default-constructed in the source (modelled with
stop id `-1`, which no push uses in a well-formed network). -/
noncomputable def labelStops (pf : PathFinderData) (ps : PathSpecification)
    (fuel : Nat) (st : SearchState) : Int × Int × SearchState :=
  labelStopsLoop pf ps fuel 1 ⟨0, -1⟩ 0 st

/-- `PathFinder::finalizeTazState`: mirror of the seeding from the opposite
TAZ, translated clause for clause from the source. -/
noncomputable def finalizeTazState (pf : PathFinderData) (ps : PathSpecification)
    (label_iteration : Int) (st : SearchState) : SearchState :=
  let end_taz_id := if ps.outbound then ps.origin_taz_id else ps.destination_taz_id
  let dir_factor : ℝ := if ps.outbound then 1 else -1
  -- `std::vector<StopState>& taz_state = stop_states[end_taz_id];` instantiates the entry
  let st := { st with
    stop_states := aset st.stop_states end_taz_id (alookupD st.stop_states end_taz_id []) }
  match alookup pf.taz_access_links end_taz_id with
  | none => st
  | some supply_links =>
      let ucm : UserClassMode :=
        ⟨ps.user_class, if ps.outbound then MODE_ACCESS else MODE_EGRESS,
         if ps.outbound then ps.access_mode else ps.egress_mode⟩
      match alookup pf.weight_lookup ucm with
      | none => st
      | some s2w =>
          s2w.foldl (fun st iter_s2w =>
            let supply_mode_num := iter_s2w.1
            match alookup supply_links supply_mode_num with
            | none => st
            | some links =>
                links.foldl (fun st link =>
                  let stop_id := link.1
                  let link_attr := aset link.2 "preferred_delay_min" 0
                  let access_time := alookupD link_attr "time_min" 0
                  match alookup st.stop_states stop_id with
                  | none => st
                  | some [] => st  -- the source would read `[0]` of an empty vector here (an end-TAZ self-link corner); skipped benignly, see the seed-failure theorem hypotheses
                  | some (cs0 :: csrest) =>
                      let current_stop_state := cs0 :: csrest
                      let earliest_dep_latest_arr := cs0.deparr_time
                      if ps.hyperpath then
                        let edla := current_stop_state.foldl
                          (fun acc ssi =>
                            if ps.outbound then min acc ssi.deparr_time
                            else max acc ssi.deparr_time)
                          earliest_dep_latest_arr
                        let nonwalk_label :=
                          calculateNonwalkLabel pf.STOCH_DISPERSION current_stop_state
                        -- only reachable by transfer: don't walk again
                        if nonwalk_label = MAX_COST then st
                        else
                          let deparr_time := edla - access_time * dir_factor
                          let link_cost := tallyLinkCost iter_s2w.2 link_attr
                          let cost := nonwalk_label + link_cost
                          addStopState ps pf.TIME_WINDOW pf.STOCH_DISPERSION end_taz_id
                            ⟨deparr_time, if ps.outbound then MODE_ACCESS else MODE_EGRESS,
                             supply_mode_num, stop_id, -1, -1, access_time, link_cost, cost,
                             label_iteration, edla⟩ st
                      else
                        let deparr_time0 := earliest_dep_latest_arr - access_time * dir_factor
                        -- first leg has to be a trip
                        if cs0.deparr_mode = MODE_TRANSFER then st
                        else if cs0.deparr_mode = MODE_EGRESS then st
                        else if cs0.deparr_mode = MODE_ACCESS then st
                        else
                          let link_cost := access_time
                          let cost0 := cs0.cost + link_cost
                          -- capacity check (note: the source keys the bump-wait lookup
                          -- by the front state's mode constant, as written)
                          let bumped :=
                            if ps.outbound then
                              match alookup pf.bump_wait (cs0.deparr_mode, cs0.seq, stop_id) with
                              | none => some (deparr_time0, cost0)
                              | some latest_time =>
                                  if deparr_time0 - pf.TIME_WINDOW > latest_time then none
                                  else some (latest_time - access_time - pf.BUMP_BUFFER,
                                             cost0 + (cs0.deparr_time - latest_time) +
                                               pf.BUMP_BUFFER)
                            else some (deparr_time0, cost0)
                          match bumped with
                          | none => st
                          | some (deparr_time, cost) =>
                              addStopState ps pf.TIME_WINDOW pf.STOCH_DISPERSION end_taz_id
                                ⟨deparr_time,
                                 if ps.outbound then MODE_ACCESS else MODE_EGRESS,
                                 supply_mode_num, stop_id, -1, -1, access_time, link_cost,
                                 cost, label_iteration, earliest_dep_latest_arr⟩ st) st) st

/-- `PathFinder::getScheduledDeparture`: the departure time of the trip from
the given stop (at the given sequence, or any sequence when negative);
`-1` on failure. -/
noncomputable def getScheduledDeparture (pf : PathFinderData)
    (trip_id stop_id sequence : Int) : ℝ :=
  match alookup pf.trip_stop_times trip_id with
  | none => -1
  | some tsts =>
      match tsts.find? (fun stt =>
          decide (stt.stop_id = stop_id) &&
          (decide (sequence < 0) || decide (sequence = stt.seq))) with
      | none => -1
      | some stt => stt.depart_time

/-- Modelled from the spec: the C library random number generator
(`srand`/`rand`) used by the hyperpath sampler, as an abstract deterministic
stream: `srand` builds the generator state from the seed and `next` yields the
next `rand()` value and the successor state.  Its implementation lives in the
platform C library, outside the sources. -/
structure RngModel (R : Type) where
  srand : Int → R
  next : R → Int × R

/-- `fasttrips::ProbabilityStop`. -/
structure ProbabilityStop where
  probability : ℝ
  prob_i : Int
  stop_id : Int
  index : Nat

/-- `PathFinder::chooseState`: draw `rand() mod back().prob_i_` and return the
index of the first entry with nonzero cumulative probability at least the
draw.  The source's fall-through ("This should never happen") returns an
indeterminate index, modelled as the out-of-range `prob_stops.length`. -/
noncomputable def chooseState {R : Type} (rng : RngModel R) (r : R)
    (prob_stops : List ProbabilityStop) : Nat × R :=
  let rn := rng.next r
  let denom := match prob_stops.getLast? with | none => 0 | some pb => pb.prob_i
  let random_num := rn.1 % denom
  match prob_stops.find? (fun pb =>
      !(decide (pb.prob_i = 0)) && decide (random_num ≤ pb.prob_i)) with
  | some pb => (pb.index, rn.2)
  | none => (prob_stops.length, rn.2)

/-- A path: the ordered `(stop id, stop state)` pairs. -/
abbrev Path := List (Int × StopState)

/-- `fasttrips::PathInfo`. -/
structure PathInfo where
  count : Int
  cost : ℝ
  capacity_problem : Bool
  probability : ℝ
  prob_i : Int

/-- `PathFinder::choosePath`: like `chooseState` over the path set; the
never-happen fall-through yields an indeterminate path, modelled as `[]`. -/
noncomputable def choosePath {R : Type} (rng : RngModel R) (r : R)
    (paths : List (Path × PathInfo)) (max_prob_i : Int) : Path × R :=
  let rn := rng.next r
  let random_num := rn.1 % max_prob_i
  match paths.find? (fun psi =>
      !(decide (psi.2.prob_i = 0)) && decide (random_num ≤ psi.2.prob_i)) with
  | some psi => (psi.1, rn.2)
  | none => ([], rn.2)

/-- The access/egress cumulative-probability setup of
`PathFinder::hyperpathGeneratePath`: probability `exp(−θ·cost)/exp(−θ·label)`,
integerised by `RAND_MAX`, dropping entries below the cutoff 1. -/
noncomputable def accessCumProb (randmax : Int) (θ taz_label : ℝ)
    (taz_state : List StopState) : List ProbabilityStop :=
  taz_state.enum.foldl (fun acc p =>
    let probability := Real.exp (-1 * θ * p.2.cost) / Real.exp (-1 * θ * taz_label)
    let prob_i : Int := ⌊(randmax : ℝ) * probability⌋
    if prob_i < 1 then acc
    else acc ++ [⟨probability,
                 (match acc.getLast? with | none => 0 | some pb => pb.prob_i) + prob_i,
                 p.2.stop_succpred, p.1⟩]) []

/-- The per-step candidate filter of the hyperpath descent
(`hyperpathGeneratePath` inner loop), exactly the source's `continue` tests. -/
noncomputable def hyperpathCandidateOK (ps : PathSpecification)
    (arrdep_time : ℝ) (prev_mode prev_trip_id : Int) (state : StopState) : Bool :=
  -- no repeat of access/egress
  if ps.outbound ∧ state.deparr_mode = MODE_ACCESS then false
  else if ps.outbound = false ∧ state.deparr_mode = MODE_EGRESS then false
  -- no double walk
  else if ps.outbound ∧
      (state.deparr_mode = MODE_EGRESS ∨ state.deparr_mode = MODE_TRANSFER) ∧
      (prev_mode = MODE_ACCESS ∨ prev_mode = MODE_TRANSFER) then false
  else if ps.outbound = false ∧
      (state.deparr_mode = MODE_ACCESS ∨ state.deparr_mode = MODE_TRANSFER) ∧
      (prev_mode = MODE_EGRESS ∨ prev_mode = MODE_TRANSFER) then false
  -- don't double on the same trip id
  else if state.deparr_mode = MODE_TRANSIT ∧ state.trip_id = prev_trip_id then false
  -- outbound: cannot depart before arriving; inbound: cannot arrive after departing
  else if ps.outbound ∧ state.deparr_time < arrdep_time then false
  else if ps.outbound = false ∧ state.deparr_time > arrdep_time then false
  else true

/-- The cumulative-probability assignment of the hyperpath descent step:
logit probabilities over the candidate costs, integerised by `RAND_MAX` and
accumulated (no cutoff here: entries keep their cumulative value). -/
noncomputable def stopCumProb (randmax : Int) (θ sum_exp : ℝ)
    (cands : List (Nat × StopState)) : List ProbabilityStop :=
  cands.foldl (fun acc p =>
    let probability := Real.exp (-1 * θ * p.2.cost) / sum_exp
    let prob_i : Int := ⌊(randmax : ℝ) * probability⌋
    acc ++ [⟨probability,
            (match acc.getLast? with | none => 0 | some pb => pb.prob_i) + prob_i,
            p.2.stop_succpred, p.1⟩]) []

/-- Replace the last element's state of a partial path (`path.back()` updates). -/
def updLast (f : StopState → StopState) : Path → Path
  | [] => []
  | [p] => [(p.1, f p.2)]
  | p :: rest => p :: updLast f rest

/-- Replace the second-to-last element's state (`path[path.size()-2]` updates). -/
def updPenult (f : StopState → StopState) : Path → Path
  | [] => []
  | [p] => [p]
  | [p, q] => [(p.1, f p.2), q]
  | p :: rest => p :: updPenult f rest

/-- Replace the third-to-last element's state (`path[prev_index-1]` updates). -/
def updAntepenult (f : StopState → StopState) : Path → Path
  | [] => []
  | [p] => [p]
  | [p, q] => [p, q]
  | [p, q, s] => [(p.1, f p.2), q, s]
  | p :: rest => p :: updAntepenult f rest

/-- Last element of a path, or a dummy (`path.back()` reads). -/
def lastOr (path : Path) : Int × StopState :=
  (path.getLast?).getD (0, dummySS)

/-- Second-to-last element of a path, or a dummy. -/
def penultOr (path : Path) : Int × StopState :=
  ((path.reverse.drop 1).head?).getD (0, dummySS)

/-- The outbound time-rewriting block of the hyperpath descent (UPDATES to
states), acting on the chosen next state and the partial path. -/
noncomputable def hyperpathUpdateOutbound (pf : PathFinderData)
    (current_stop_id : Int) (arrdep_time : ℝ) (prev_mode : Int)
    (next_ss : StopState) (path : Path) : StopState × Path :=
  if prev_mode = MODE_ACCESS then
    -- leave origin as late as possible
    let dep_time := getScheduledDeparture pf next_ss.trip_id current_stop_id next_ss.seq
    let front_link_time := (path.headD (0, dummySS)).2.link_time
    let path := updLast (fun s =>
      { s with arrdep_time := dep_time, deparr_time := dep_time - front_link_time }) path
    -- no wait time for the trip
    ({ next_ss with link_time := next_ss.arrdep_time - next_ss.deparr_time }, path)
  else if isTrip next_ss.deparr_mode then
    -- link time is arrival time − previous arrival time
    ({ next_ss with link_time := next_ss.arrdep_time - arrdep_time }, path)
  else if next_ss.deparr_mode = MODE_TRANSFER then
    -- start transferring immediately
    let d := (lastOr path).2.arrdep_time
    ({ next_ss with deparr_time := d, arrdep_time := d + next_ss.link_time }, path)
  else if next_ss.deparr_mode = MODE_EGRESS then
    -- don't wait, just walk
    let d := (lastOr path).2.arrdep_time
    ({ next_ss with deparr_time := d, arrdep_time := d + next_ss.link_time }, path)
  else (next_ss, path)

/-- The inbound time-rewriting block of the hyperpath descent (links chosen in
reverse chronological order). -/
noncomputable def hyperpathUpdateInbound (pf : PathFinderData)
    (current_stop_id : Int) (prev_mode : Int)
    (next_ss : StopState) (path : Path) : StopState × Path :=
  let back0 := (lastOr path).2
  let (next_ss, path) :=
    if next_ss.deparr_mode = MODE_ACCESS then
      -- leave origin as late as possible
      let dep_time := getScheduledDeparture pf back0.trip_id current_stop_id back0.seq_succpred
      let next_ss := { next_ss with
        deparr_time := dep_time, arrdep_time := dep_time - next_ss.link_time }
      -- no wait time for the trip
      (next_ss, updLast (fun s => { s with link_time := s.deparr_time - s.arrdep_time }) path)
    else if isTrip next_ss.deparr_mode then
      -- pretend the wait time is zero for now
      let next_ss := { next_ss with link_time := next_ss.deparr_time - next_ss.arrdep_time }
      if prev_mode = MODE_TRANSFER then
        -- move the transfer right after arriving; give the wait to the previous trip
        let new_back_deparr := next_ss.deparr_time + back0.link_time
        let path := updLast (fun s =>
          { s with arrdep_time := next_ss.deparr_time, deparr_time := new_back_deparr }) path
        let path := updPenult (fun s =>
          { s with link_time := s.deparr_time - new_back_deparr }) path
        (next_ss, path)
      else if isTrip prev_mode then
        -- zero-walk transfer: give the previous trip the wait time
        (next_ss, updLast (fun s =>
          { s with link_time := s.deparr_time - next_ss.deparr_time }) path)
      else (next_ss, path)
    else if next_ss.deparr_mode = MODE_TRANSFER then
      -- transfer as late as possible
      let next_ss := { next_ss with
        deparr_time := back0.arrdep_time,
        arrdep_time := back0.arrdep_time - next_ss.link_time }
      (next_ss, path)
    else (next_ss, path)
  -- egress: don't wait, just walk (a separate `if` in the source)
  if prev_mode = MODE_EGRESS then
    (next_ss, updLast (fun s =>
      { s with arrdep_time := next_ss.deparr_time,
               deparr_time := next_ss.deparr_time + s.link_time }) path)
  else (next_ss, path)

/-- The `while (true)` descent loop of `PathFinder::hyperpathGeneratePath`,
with explicit fuel.  Returns the completed path (`true` in the source) or
`none` on a dead end / zero logit sum (or exhausted fuel). -/
noncomputable def hyperpathGenLoop {R : Type} (pf : PathFinderData) (ps : PathSpecification)
    (rng : RngModel R) (st : SearchState) :
    Nat → Path → Int → ℝ → Int → Int → R → Option Path × R
  | 0, _, _, _, _, _, r => (none, r)
  | fuel + 1, path, current_stop_id, arrdep_time, prev_mode, prev_trip_id, r =>
      match alookup st.stop_states current_stop_id with
      | none => (none, r)  -- the source dereferences find() unchecked here
      | some states =>
          let cands := states.enum.filter (fun p =>
            hyperpathCandidateOK ps arrdep_time prev_mode prev_trip_id p.2)
          let sum_exp := hpSumExp pf.STOCH_DISPERSION (cands.map (fun p => p.2.cost))
          -- dead end
          if cands.length = 0 then (none, r)
          else if sum_exp = 0 then (none, r)
          else
            let probs := stopCumProb pf.RAND_MAX pf.STOCH_DISPERSION sum_exp cands
            let chosen := chooseState rng r probs
            let next_ss := (states.get? chosen.1).getD dummySS
            let (next_ss, path) :=
              if ps.outbound then
                hyperpathUpdateOutbound pf current_stop_id arrdep_time prev_mode next_ss path
              else
                hyperpathUpdateInbound pf current_stop_id prev_mode next_ss path
            -- record the choice and move on
            let path := path ++ [(current_stop_id, next_ss)]
            if (ps.outbound ∧ next_ss.deparr_mode = MODE_EGRESS) ∨
               (ps.outbound = false ∧ next_ss.deparr_mode = MODE_ACCESS) then
              (some path, chosen.2)
            else
              hyperpathGenLoop pf ps rng st fuel path next_ss.stop_succpred
                next_ss.arrdep_time next_ss.deparr_mode next_ss.trip_id chosen.2

/-- `PathFinder::hyperpathGeneratePath`: pick the access/egress entry link by
its logit probability, then descend stop by stop. -/
noncomputable def hyperpathGeneratePath {R : Type} (pf : PathFinderData)
    (ps : PathSpecification) (rng : RngModel R) (st : SearchState)
    (fuel : Nat) (r : R) : Option Path × R :=
  let start_state_id := if ps.outbound then ps.origin_taz_id else ps.destination_taz_id
  let dir_factor : ℝ := if ps.outbound then 1 else -1
  let taz_state := alookupD st.stop_states start_state_id []
  let taz_label := (alookupD st.hyperpath_ss start_state_id dummyHSS).hyperpath_cost
  let access_cum_prob := accessCumProb pf.RAND_MAX pf.STOCH_DISPERSION taz_label taz_state
  let chosen := chooseState rng r access_cum_prob
  let ss := (taz_state.get? chosen.1).getD dummySS
  let path : Path := [(start_state_id, ss)]
  -- outbound: arrival time; inbound: departure time
  let arrdep_time := ss.deparr_time + ss.link_time * dir_factor
  hyperpathGenLoop pf ps rng st fuel path ss.stop_succpred arrdep_time
    ss.deparr_mode ss.trip_id chosen.2

/-- The per-link loop of `PathFinder::calculatePathCost`, acting on the path
in chronological order (the source iterates forward when outbound and
backward when inbound; both directions are normalised here to the
chronological list).  `first_trip` tracks the transfer penalty of later
trips; a trip followed immediately by another trip has a zero-walk transfer
link synthesised between them, which the loop then processes as well.
Fuelled: every step consumes one element and inserts at most one. -/
noncomputable def calcPathChron (pf : PathFinderData) (ps : PathSpecification) :
    Nat → Bool → List (Int × StopState) → List (Int × StopState) × ℝ
  | 0, _, _ => ([], 0)
  | _ + 1, _, [] => ([], 0)
  | fuel + 1, first_trip, (stop_id, st0) :: rest =>
      let dir_factor : ℝ := if ps.outbound then 1 else -1
      if st0.deparr_mode = MODE_ACCESS then
        -- inbound: preferred time is the origin departure time
        let orig_departure_time :=
          if ps.outbound then st0.deparr_time else st0.deparr_time - st0.link_time
        let preference_delay :=
          if ps.outbound then 0 else orig_departure_time - ps.preferred_time
        let transit_stop := if ps.outbound then st0.stop_succpred else stop_id
        let named_weights :=
          alookupD (alookupD pf.weight_lookup
            ⟨ps.user_class, MODE_ACCESS, ps.access_mode⟩ []) st0.trip_id []
        let attributes :=
          aset (alookupD (alookupD (alookupD pf.taz_access_links ps.origin_taz_id [])
            st0.trip_id []) transit_stop [])
            "preferred_delay_min" preference_delay
        let cost := tallyLinkCost named_weights attributes
        let res := calcPathChron pf ps fuel first_trip rest
        ((stop_id, { st0 with cost := cost }) :: res.1, cost + res.2)
      else if st0.deparr_mode = MODE_EGRESS then
        -- outbound: preferred time is the destination arrival time
        let dest_arrival_time :=
          if ps.outbound then st0.deparr_time + st0.link_time else st0.deparr_time
        let preference_delay :=
          if ps.outbound then ps.preferred_time - dest_arrival_time else 0
        let transit_stop := if ps.outbound then stop_id else st0.stop_succpred
        let named_weights :=
          alookupD (alookupD pf.weight_lookup
            ⟨ps.user_class, MODE_EGRESS, ps.egress_mode⟩ []) st0.trip_id []
        let attributes :=
          aset (alookupD (alookupD (alookupD pf.taz_access_links ps.destination_taz_id [])
            st0.trip_id []) transit_stop [])
            "preferred_delay_min" preference_delay
        let cost := tallyLinkCost named_weights attributes
        let res := calcPathChron pf ps fuel first_trip rest
        ((stop_id, { st0 with cost := cost }) :: res.1, cost + res.2)
      else if st0.deparr_mode = MODE_TRANSFER then
        let orig_stop := if ps.outbound then stop_id else st0.stop_succpred
        let dest_stop := if ps.outbound then st0.stop_succpred else stop_id
        let link_attr :=
          if orig_stop ≠ dest_stop then
            alookupD (alookupD pf.transfer_links_o_d orig_stop []) dest_stop []
          else aset [] "walk_time_min" (0 : ℝ)  -- default no-walk transfer
        let link_attr := aset link_attr "transfer_penalty" (1 : ℝ)
        let named_weights :=
          alookupD (alookupD pf.weight_lookup
            ⟨ps.user_class, MODE_TRANSFER, "transfer"⟩ []) pf.transfer_supply_mode []
        let cost := tallyLinkCost named_weights link_attr
        let res := calcPathChron pf ps fuel first_trip rest
        ((stop_id, { st0 with cost := cost }) :: res.1, cost + res.2)
      else
        -- trip
        let trip_ivt_min := (st0.arrdep_time - st0.deparr_time) * dir_factor
        let wait_min := st0.link_time - trip_ivt_min
        let supply_mode_num :=
          match alookup pf.trip_info st0.trip_id with
          | none => 0  -- find() unchecked in the source; trip info assumed present
          | some ti => ti.supply_mode_num
        let trip_attr :=
          match alookup pf.trip_info st0.trip_id with
          | none => []
          | some ti => ti.trip_attr
        let named_weights :=
          alookupD (alookupD pf.weight_lookup
            ⟨ps.user_class, MODE_TRANSIT, ps.transit_mode⟩ []) supply_mode_num []
        let link_attr := aset (aset trip_attr "in_vehicle_time_min" trip_ivt_min)
          "wait_time_min" wait_min
        let link_attr :=
          if first_trip then aset link_attr "transfer_penalty" (0 : ℝ)
          else aset link_attr "transfer_penalty" (1 : ℝ)
        let cost := tallyLinkCost named_weights link_attr
        -- if the next link is a trip, insert a zero-walk transfer link between
        let inserted : List (Int × StopState) :=
          match rest.head? with
          | none => []
          | some nxt =>
              if isTrip nxt.2.deparr_mode then
                let xfer_stop_id := if ps.outbound then st0.stop_succpred else stop_id
                let t := if ps.outbound then st0.arrdep_time else st0.deparr_time
                [(xfer_stop_id,
                  ⟨t, MODE_TRANSFER, pf.transfer_supply_mode, xfer_stop_id, -1, -1,
                   0, 0, cost, -1, t⟩)]
              else []
        let res := calcPathChron pf ps fuel false (inserted ++ rest)
        ((stop_id, { st0 with cost := cost }) :: res.1, cost + res.2)

/-- `PathFinder::calculatePathCost`: recompute every link's cost under the
resolved schedule and sum into `path_info.cost_`; a no-op on empty paths. -/
noncomputable def calculatePathCost (pf : PathFinderData) (ps : PathSpecification)
    (path : Path) (path_info : PathInfo) : Path × PathInfo :=
  if path.length = 0 then (path, path_info)
  else
    let chron := if ps.outbound then path else path.reverse
    let res := calcPathChron pf ps (2 * chron.length + 2) true chron
    ((if ps.outbound then res.1 else res.1.reverse), { path_info with cost := res.2 })

/-- The path-generation attempts loop of `PathFinder::getFoundPath`
(hyperpath): run `STOCH_PATHSET_SIZE` attempts, deduplicating found paths and
counting repeats.  The source's path set is an ordered `std::map` keyed by a
comparator declared in the missing header; modelled from the spec
("deduplicate paths, equality over the full sequence") as a first-insertion
ordered association list. -/
noncomputable def genPathSet {R : Type} (pf : PathFinderData) (ps : PathSpecification)
    (rng : RngModel R) (st : SearchState) (fuel : Nat) :
    Nat → List (Path × PathInfo) → R → List (Path × PathInfo) × R
  | 0, paths, r => (paths, r)
  | n + 1, paths, r =>
      let res := hyperpathGeneratePath pf ps rng st fuel r
      let paths :=
        match res.1 with
        | none => paths
        | some new_path =>
            match alookup paths new_path with
            | some pi => aset paths new_path { pi with count := pi.count + 1 }
            | none => paths ++ [(new_path, ⟨1, 0, false, 0, 0⟩)]
      genPathSet pf ps rng st fuel n paths res.2

/-- The deterministic reconstruction loop of `PathFinder::getFoundPath`
(`while (ss.deparr_mode_ != final_state_type)`): follow `stop_succpred`,
append the next stop's front state, and rewrite times exactly as the source
does on the last two (or three) path entries.  Fuelled: the source loop is
unbounded on malformed chains. -/
noncomputable def detWalkLoop (pf : PathFinderData) (ps : PathSpecification)
    (st : SearchState) : Nat → Int → StopState → Path → Path
  | 0, _, _, path => path
  | fuel + 1, final_state_type, ss, path =>
      if ss.deparr_mode = final_state_type then path
      else
        let stop_id := ss.stop_succpred
        let ss' := headOr (alookupD st.stop_states stop_id []) dummySS
        let path := path ++ [(stop_id, ss')]
        let prev := penultOr path
        let path :=
          if ps.outbound then
            -- leave origin as late as possible
            if prev.2.deparr_mode = MODE_ACCESS then
              updLast (fun c => { c with link_time := c.arrdep_time - c.deparr_time })
                (updPenult (fun p =>
                  { p with arrdep_time := ss'.deparr_time,
                           deparr_time := ss'.deparr_time - p.link_time }) path)
            else if isTrip ss'.deparr_mode then
              -- link time is arrival time − previous arrival time
              updLast (fun c => { c with link_time := c.arrdep_time - prev.2.arrdep_time }) path
            else if ss'.deparr_mode = MODE_TRANSFER then
              -- start transferring immediately
              updLast (fun c =>
                { c with deparr_time := prev.2.arrdep_time,
                         arrdep_time := prev.2.arrdep_time + c.link_time }) path
            else if ss'.deparr_mode = MODE_EGRESS then
              -- don't wait, just walk
              updLast (fun c =>
                { c with deparr_time := prev.2.arrdep_time,
                         arrdep_time := prev.2.arrdep_time + c.link_time }) path
            else path
          else
            -- inbound: links chosen in reverse chronological order
            let path :=
              if ss'.deparr_mode = MODE_ACCESS then
                updPenult (fun p => { p with link_time := p.deparr_time - p.arrdep_time })
                  (updLast (fun c =>
                    { c with deparr_time := prev.2.arrdep_time,
                             arrdep_time := prev.2.arrdep_time - c.link_time }) path)
              else if isTrip ss'.deparr_mode then
                if prev.2.deparr_mode = MODE_TRANSFER then
                  -- transfer right after arriving; give the wait to the previous trip
                  let new_prev_deparr := ss'.deparr_time + prev.2.link_time
                  updAntepenult (fun q => { q with link_time := q.deparr_time - new_prev_deparr })
                    (updPenult (fun p =>
                      { p with arrdep_time := ss'.deparr_time,
                               deparr_time := new_prev_deparr }) path)
                else if isTrip prev.2.deparr_mode then
                  updPenult (fun p =>
                    { p with link_time := p.deparr_time - ss'.deparr_time }) path
                else path
              else path
            -- egress: don't wait, just walk (a separate `if` in the source)
            if prev.2.deparr_mode = MODE_EGRESS then
              updPenult (fun p =>
                { p with arrdep_time := ss'.deparr_time,
                         deparr_time := ss'.deparr_time + p.link_time }) path
            else path
        detWalkLoop pf ps st fuel final_state_type ss' path

/-- `PathFinder::getFoundPath`, translated clause for clause from the source:
fail on an empty end-TAZ state; otherwise sample and choose (hyperpath) or
walk the chain of successors/predecessors rewriting times (deterministic). -/
noncomputable def getFoundPath {R : Type} (pf : PathFinderData) (ps : PathSpecification)
    (rng : RngModel R) (r0 : R) (st : SearchState) (fuel : Nat)
    (path : Path) (path_info : PathInfo) : Bool × Path × PathInfo :=
  let end_taz_id := if ps.outbound then ps.origin_taz_id else ps.destination_taz_id
  let taz_state := alookupD st.stop_states end_taz_id []
  -- no taz states -> no path found
  if taz_state.length = 0 then (false, path, path_info)
  else if ps.hyperpath then
    -- random seed
    let r1 := rng.srand ps.path_id
    -- find a set of paths
    let gen := genPathSet pf ps rng st fuel pf.STOCH_PATHSET_SIZE.toNat [] r1
    -- recompute the costs under the resolved schedule, keyed by updated path
    let paths_updated := gen.1.foldl (fun acc ppi =>
      let upd := calculatePathCost pf ps ppi.1 ppi.2
      aset acc upd.1 upd.2) []
    let logsum := paths_updated.foldl (fun acc ppi =>
      if ppi.2.cost > 0 then acc + Real.exp (-1 * pf.STOCH_DISPERSION * ppi.2.cost)
      else acc) 0
    if logsum = 0 then (false, path, path_info)
    else
      -- integerised cumulative probabilities (cost cutoff 1)
      let cum := paths_updated.foldl (fun (acc : Int × List (Path × PathInfo)) ppi =>
        let probability := Real.exp (-1 * pf.STOCH_DISPERSION * ppi.2.cost) / logsum
        let prob_i : Int := ⌊(pf.RAND_MAX : ℝ) * probability⌋
        if prob_i < 1 then
          (acc.1, acc.2 ++ [(ppi.1, { ppi.2 with probability := probability })])
        else
          (acc.1 + prob_i,
           acc.2 ++
             [(ppi.1,
               { ppi.2 with probability := probability, prob_i := acc.1 + prob_i })])) (0, [])
      if cum.1 = 0 then (false, path, path_info)
      else
        let chosen := choosePath rng gen.2 cum.2 cum.1
        (true, chosen.1, alookupD cum.2 chosen.1 ⟨0, 0, false, 0, 0⟩)
  else
    -- deterministic: walk the single best chain and rewrite times
    let final_state_type := if ps.outbound then MODE_EGRESS else MODE_ACCESS
    let ss := headOr taz_state dummySS  -- there's only one
    let path0 : Path := [(end_taz_id, ss)]
    let walked := detWalkLoop pf ps st fuel final_state_type ss path0
    let res := calculatePathCost pf ps walked path_info
    (true, res.1, res.2)

/-- `PathFinder::findPath`: the full per-request pipeline — seed, label,
finalize the opposite TAZ, and reconstruct/sample the path.  `r0` is the
state of the process-wide C RNG when the request starts; `fuel` bounds the
source's unbounded loops.  The in-out `path` and `path_info` are initialised
by the caller (`_fasttrips_find_path`) to the empty path and zeroed info;
returns `(path, path_info, label_iterations, max_process_count)`. -/
noncomputable def findPath {R : Type} (pf : PathFinderData) (ps : PathSpecification)
    (rng : RngModel R) (r0 : R) (fuel : Nat) : Path × PathInfo × Int × Int :=
  let st0 : SearchState := ⟨[], LSQ.init, []⟩
  let init := initializeStopStates pf ps st0
  let labeled := labelStops pf ps fuel init.2
  let st3 := finalizeTazState pf ps labeled.1 labeled.2.2
  let found := getFoundPath pf ps rng r0 st3 fuel [] ⟨0, 0, false, 0, 0⟩
  (found.2.1, found.2.2, labeled.1, labeled.2.1)

/-- The declarative reading of the cost tally: the sum, over the weight keys
whose attribute is present, of `weight × attribute`. -/
def tallySpec {α : Type} [LinearOrderedField α]
    (weights : List (String × α)) (attributes : List (String × α)) : α :=
  ((weights.filter (fun w => (alookup attributes w.1).isSome)).map
    (fun w => w.2 * (alookup attributes w.1).getD 0)).sum

/-! ## Theorems -/

theorem alookup_aset_self {κ β : Type} [DecidableEq κ] (m : List (κ × β)) (k : κ) (v : β) :
    alookup (aset m k v) k = some v := by
  induction m with
  | nil => simp [aset, alookup]
  | cons hd tl ih =>
      by_cases h : hd.1 = k
      · simp [aset, h, alookup]
      · simpa [aset, h, alookup] using ih

theorem alookup_aset_ne {κ β : Type} [DecidableEq κ] (m : List (κ × β)) (k k' : κ) (v : β)
    (hne : k' ≠ k) : alookup (aset m k v) k' = alookup m k' := by
  induction m with
  | nil => simp [aset, alookup, Ne.symm hne]
  | cons hd tl ih =>
      by_cases h : hd.1 = k
      · subst h
        simp [aset, alookup, Ne.symm hne]
      · simp [aset, h, alookup, ih]

theorem alookup_mem {κ β : Type} [DecidableEq κ] :
    ∀ (m : List (κ × β)) (k : κ) (v : β), alookup m k = some v → (k, v) ∈ m := by
  intro m
  induction m with
  | nil => intro k v h; cases h
  | cons hd tl ih =>
      intro k v h
      unfold alookup at h
      by_cases hk : hd.1 = k
      · rw [if_pos hk] at h
        cases h
        subst hk
        simp
      · rw [if_neg hk] at h
        exact List.mem_cons_of_mem hd (ih k v h)

theorem tallyLinkCost_acc {α : Type} [LinearOrderedField α]
    (attributes : List (String × α)) :
    ∀ (weights : List (String × α)) (acc : α),
      weights.foldl
        (fun cost iw =>
          match alookup attributes iw.1 with
          | none => cost
          | some av => cost + iw.2 * av) acc
        = acc + tallySpec weights attributes := by
  intro weights
  induction weights with
  | nil => intro acc; simp [tallySpec]
  | cons hd tl ih =>
      intro acc
      rcases hl : alookup attributes hd.1 with _ | av
      · simpa [tallySpec, List.filter_cons, hl] using ih acc
      · simp only [List.foldl_cons, hl]
        rw [ih]
        simp [tallySpec, List.filter_cons, hl]
        ring

/-- C6: for every weight vector and attribute vector, `tallyLinkCost` returns
the sum over the weight keys of `weight × attribute`, where weight keys
missing from the attribute vector contribute nothing, and attribute entries
not named by any weight are ignored (the result depends on the attribute
vector only through the lookups of the weight keys). -/
theorem C6_tallyLinkCost_sum {α : Type} [LinearOrderedField α]
    (weights attributes : List (String × α)) :
    tallyLinkCost weights attributes = tallySpec weights attributes ∧
    (∀ attributes' : List (String × α),
      (∀ k ∈ weights.map Prod.fst, alookup attributes' k = alookup attributes k) →
      tallyLinkCost weights attributes' = tallyLinkCost weights attributes) := by
  constructor
  · simpa using tallyLinkCost_acc attributes weights 0
  · intro attributes' hagree
    have h1 := tallyLinkCost_acc attributes weights 0
    have h2 := tallyLinkCost_acc attributes' weights 0
    simp only [zero_add] at h1 h2
    show tallyLinkCost weights attributes' = tallyLinkCost weights attributes
    rw [tallyLinkCost, h2, tallyLinkCost, h1]
    unfold tallySpec
    have hfil : weights.filter (fun w => (alookup attributes' w.1).isSome)
        = weights.filter (fun w => (alookup attributes w.1).isSome) := by
      apply List.filter_congr
      intro w hw
      rw [hagree w.1 (List.mem_map_of_mem Prod.fst hw)]
    rw [hfil]
    refine congrArg List.sum (List.map_congr_left ?_)
    intro w hw
    rw [hagree w.1 (List.mem_map_of_mem Prod.fst (List.mem_of_mem_filter hw))]

/-- Witness for C6 at `ℚ`: a weight key missing from the attributes is
skipped, a present key contributes `weight × attribute`, and extra attribute
keys are ignored. -/
theorem C6_tallyLinkCost_sum_witness :
    tallyLinkCost [("ivt", (2 : ℚ)), ("wait", 3)] [("ivt", 10), ("extra", 7)]
      = tallySpec [("ivt", (2 : ℚ)), ("wait", 3)] [("ivt", 10), ("extra", 7)] ∧
    tallyLinkCost [("ivt", (2 : ℚ)), ("wait", 3)] [("ivt", 10)]
      = tallyLinkCost [("ivt", (2 : ℚ)), ("wait", 3)] [("ivt", 10), ("extra", 7)] := by
  constructor
  · exact (C6_tallyLinkCost_sum [("ivt", (2 : ℚ)), ("wait", 3)] [("ivt", 10), ("extra", 7)]).1
  · exact (C6_tallyLinkCost_sum [("ivt", (2 : ℚ)), ("wait", 3)]
      [("ivt", 10), ("extra", 7)]).2 [("ivt", 10)] (by decide)

theorem tstWithin_iff {α : Type} [LinearOrderedField α]
    (TW : α) (outbound : Bool) (timepoint : α) (tst : TripStopTime α) :
    tstWithin TW outbound timepoint tst = true ↔
      (if outbound then tst.arrive_time ≤ timepoint ∧ timepoint - TW < tst.arrive_time
       else timepoint ≤ tst.depart_time ∧ tst.depart_time < timepoint + TW) := by
  cases outbound <;> simp [tstWithin, and_comm, GE.ge, GT.gt]

/-- C3: `getTripsWithinTime` returns exactly the trip-stop-times registered at
the stop whose arrival (outbound) lies in the half-open window
`(timepoint − TW, timepoint]`, or whose departure (inbound) lies in
`[timepoint, timepoint + TW)`; in particular an arrival exactly at `timepoint`
is included outbound, an arrival exactly at `timepoint − TW` is excluded
outbound, a departure exactly at `timepoint` is included inbound, and a
departure exactly at `timepoint + TW` is excluded inbound. -/
theorem C3_getTripsWithinTime_window {α : Type} [LinearOrderedField α]
    (stop_trip_times : List (Int × List (TripStopTime α))) (TW : α)
    (stop_id : Int) (outbound : Bool) (timepoint : α) :
    (∀ tst : TripStopTime α,
      tst ∈ getTripsWithinTime stop_trip_times TW stop_id outbound timepoint ↔
        ∃ tsts, alookup stop_trip_times stop_id = some tsts ∧ tst ∈ tsts ∧
          (if outbound then tst.arrive_time ≤ timepoint ∧ timepoint - TW < tst.arrive_time
           else timepoint ≤ tst.depart_time ∧ tst.depart_time < timepoint + TW)) ∧
    (∀ (tsts : List (TripStopTime α)) (tst : TripStopTime α),
      alookup stop_trip_times stop_id = some tsts → tst ∈ tsts →
      (0 < TW → outbound = true → tst.arrive_time = timepoint →
        tst ∈ getTripsWithinTime stop_trip_times TW stop_id outbound timepoint) ∧
      (outbound = true → tst.arrive_time = timepoint - TW →
        tst ∉ getTripsWithinTime stop_trip_times TW stop_id outbound timepoint) ∧
      (0 < TW → outbound = false → tst.depart_time = timepoint →
        tst ∈ getTripsWithinTime stop_trip_times TW stop_id outbound timepoint) ∧
      (outbound = false → tst.depart_time = timepoint + TW →
        tst ∉ getTripsWithinTime stop_trip_times TW stop_id outbound timepoint)) := by
  have hmem : ∀ tst : TripStopTime α,
      tst ∈ getTripsWithinTime stop_trip_times TW stop_id outbound timepoint ↔
        ∃ tsts, alookup stop_trip_times stop_id = some tsts ∧ tst ∈ tsts ∧
          (if outbound then tst.arrive_time ≤ timepoint ∧ timepoint - TW < tst.arrive_time
           else timepoint ≤ tst.depart_time ∧ tst.depart_time < timepoint + TW) := by
    intro tst
    unfold getTripsWithinTime
    rcases h : alookup stop_trip_times stop_id with _ | tsts
    · simp
    · simp [List.mem_filter, tstWithin_iff]
  refine ⟨hmem, ?_⟩
  intro tsts tst hl hm
  refine ⟨?_, ?_, ?_, ?_⟩
  · intro hTW ho ha
    exact (hmem tst).2 ⟨tsts, hl, hm, by simp [ho, ha]; linarith⟩
  · intro ho ha hmem2
    rcases (hmem tst).1 hmem2 with ⟨tsts', hl', _, hcond⟩
    rw [ho] at hcond
    simp only [if_pos rfl] at hcond
    rw [ha] at hcond
    exact absurd hcond.2 (lt_irrefl _)
  · intro hTW ho hd
    exact (hmem tst).2 ⟨tsts, hl, hm, by simp [ho, hd]; linarith⟩
  · intro ho hd hmem2
    rcases (hmem tst).1 hmem2 with ⟨tsts', hl', _, hcond⟩
    rw [ho] at hcond
    simp only [Bool.false_eq_true, if_false] at hcond
    rw [hd] at hcond
    exact absurd hcond.2 (lt_irrefl _)

/-- Witness for C3 at `ℚ`: a single stop with four trips sitting exactly on
the window boundaries (`TW = 30`, `timepoint = 480`): arrivals at 480 and 450,
departures at 480 and 510. -/
theorem C3_getTripsWithinTime_window_witness :
    (⟨1, 1, 7, (480 : ℚ), 485⟩ : TripStopTime ℚ) ∈
      getTripsWithinTime [(7, [⟨1, 1, 7, (480 : ℚ), 485⟩, ⟨2, 1, 7, 450, 455⟩])]
        30 7 true 480 ∧
    (⟨2, 1, 7, (450 : ℚ), 455⟩ : TripStopTime ℚ) ∉
      getTripsWithinTime [(7, [⟨1, 1, 7, (480 : ℚ), 485⟩, ⟨2, 1, 7, 450, 455⟩])]
        30 7 true 480 ∧
    (⟨3, 1, 7, (475 : ℚ), 480⟩ : TripStopTime ℚ) ∈
      getTripsWithinTime [(7, [⟨3, 1, 7, (475 : ℚ), 480⟩, ⟨4, 1, 7, 505, 510⟩])]
        30 7 false 480 ∧
    (⟨4, 1, 7, (505 : ℚ), 510⟩ : TripStopTime ℚ) ∉
      getTripsWithinTime [(7, [⟨3, 1, 7, (475 : ℚ), 480⟩, ⟨4, 1, 7, 505, 510⟩])]
        30 7 false 480 := by
  refine ⟨?_, ?_, ?_, ?_⟩
  · exact ((C3_getTripsWithinTime_window
      [(7, [⟨1, 1, 7, (480 : ℚ), 485⟩, ⟨2, 1, 7, 450, 455⟩])] 30 7 true 480).2
      [⟨1, 1, 7, (480 : ℚ), 485⟩, ⟨2, 1, 7, 450, 455⟩] ⟨1, 1, 7, (480 : ℚ), 485⟩
      (by decide) (by decide)).1 (by norm_num) rfl (by norm_num)
  · exact (((C3_getTripsWithinTime_window
      [(7, [⟨1, 1, 7, (480 : ℚ), 485⟩, ⟨2, 1, 7, 450, 455⟩])] 30 7 true 480).2
      [⟨1, 1, 7, (480 : ℚ), 485⟩, ⟨2, 1, 7, 450, 455⟩] ⟨2, 1, 7, (450 : ℚ), 455⟩
      (by decide) (by decide)).2).1 rfl (by norm_num)
  · exact ((((C3_getTripsWithinTime_window
      [(7, [⟨3, 1, 7, (475 : ℚ), 480⟩, ⟨4, 1, 7, 505, 510⟩])] 30 7 false 480).2
      [⟨3, 1, 7, (475 : ℚ), 480⟩, ⟨4, 1, 7, 505, 510⟩] ⟨3, 1, 7, (475 : ℚ), 480⟩
      (by decide) (by decide)).2).2).1 (by norm_num) rfl (by norm_num)
  · exact ((((C3_getTripsWithinTime_window
      [(7, [⟨3, 1, 7, (475 : ℚ), 480⟩, ⟨4, 1, 7, 505, 510⟩])] 30 7 false 480).2
      [⟨3, 1, 7, (475 : ℚ), 480⟩, ⟨4, 1, 7, 505, 510⟩] ⟨4, 1, 7, (505 : ℚ), 510⟩
      (by decide) (by decide)).2).2).2 rfl (by norm_num)

/-- C4: in deterministic outbound transfer relaxation with a bump-wait entry
for `(current_trip, current_seq, current_stop)` holding `latest_time`: when
`deparr_time − TIME_WINDOW > latest_time` the candidate is skipped; otherwise
its cost grows by `(current_state.deparr_time − latest_time) + BUMP_BUFFER`
and its departure becomes `latest_time − transfer_time − BUMP_BUFFER`. -/
theorem C4_transfer_bump_adjustment {α : Type} [LinearOrderedField α]
    (TW BB : α) (bump_wait : List ((Int × Int × Int) × α))
    (current_trip cur_seq cur_stop : Int) (latest_dep cur_deparr label xfer latest_time : α)
    (hfound : alookup bump_wait (current_trip, cur_seq, cur_stop) = some latest_time) :
    ((latest_dep - xfer) - TW > latest_time →
      transferDetOutbound TW BB bump_wait current_trip cur_seq cur_stop
        latest_dep cur_deparr label xfer = none) ∧
    (¬((latest_dep - xfer) - TW > latest_time) →
      transferDetOutbound TW BB bump_wait current_trip cur_seq cur_stop
        latest_dep cur_deparr label xfer
        = some (latest_time - xfer - BB, xfer,
                (label + xfer) + (cur_deparr - latest_time) + BB)) := by
  constructor
  · intro hgt
    simp [transferDetOutbound, hfound, hgt]
  · intro hle
    simp [transferDetOutbound, hfound, hle]

/-- Witness for C4 at `ℚ`: with `TW = 30`, `BB = 5`, a bump entry at 440 and a
transfer candidate departing at 475 (`475 − 30 > 440`) is skipped, while a
bump entry at 450 keeps the candidate shifted to `450 − 5 − 5 = 440` with cost
`(10 + 5) + (480 − 450) + 5 = 50`. -/
theorem C4_transfer_bump_adjustment_witness :
    transferDetOutbound (30 : ℚ) 5 [((9, 2, 7), 440)] 9 2 7 480 480 10 5 = none ∧
    transferDetOutbound (30 : ℚ) 5 [((9, 2, 7), 450)] 9 2 7 480 480 10 5
      = some (440, 5, 50) := by
  constructor
  · exact (C4_transfer_bump_adjustment (30 : ℚ) 5 [((9, 2, 7), 440)] 9 2 7 480 480 10 5 440
      (by decide)).1 (by norm_num)
  · have h := (C4_transfer_bump_adjustment (30 : ℚ) 5 [((9, 2, 7), 450)] 9 2 7 480 480 10 5 450
      (by decide)).2 (by norm_num)
    rw [h]; norm_num

/-- C5 counterexample: the claim says a bump-wait entry with exactly
`deparr_time − TIME_WINDOW = latest_time` causes a skip, but the source skips
only on strict `>`: at `deparr_time = 475`, `TW = 30`, `latest_time = 445`
(`475 − 30 = 445`) the candidate is kept (penalised and shifted), not
skipped. -/
theorem C5_equality_skip_counterexample :
    ((480 : ℚ) - 5) - 30 = 445 ∧
    transferDetOutbound (30 : ℚ) 5 [((9, 2, 7), 445)] 9 2 7 480 480 10 5
      = some (435, 5, 55) := by
  constructor
  · norm_num
  · simp [transferDetOutbound, alookup]
    norm_num

/-- C5 (amended): a candidate whose `deparr_time − TIME_WINDOW` equals the
bump-wait `latest_time` exactly is kept — penalised by
`(current_state.deparr_time − latest_time) + BUMP_BUFFER` and shifted to
`latest_time − transfer_time − BUMP_BUFFER`; a skip requires strictly
`deparr_time − TIME_WINDOW > latest_time`. -/
theorem C5_equality_kept {α : Type} [LinearOrderedField α]
    (TW BB : α) (bump_wait : List ((Int × Int × Int) × α))
    (current_trip cur_seq cur_stop : Int) (latest_dep cur_deparr label xfer latest_time : α)
    (hfound : alookup bump_wait (current_trip, cur_seq, cur_stop) = some latest_time)
    (heq : (latest_dep - xfer) - TW = latest_time) :
    transferDetOutbound TW BB bump_wait current_trip cur_seq cur_stop
      latest_dep cur_deparr label xfer
      = some (latest_time - xfer - BB, xfer,
              (label + xfer) + (cur_deparr - latest_time) + BB) := by
  have hle : ¬((latest_dep - xfer) - TW > latest_time) := by rw [heq]; exact lt_irrefl _
  simp [transferDetOutbound, hfound, hle]

/-- Witness for C5's amended statement at `ℚ`: the boundary candidate of the
counterexample is kept with the shifted departure 435 and penalised cost 55. -/
theorem C5_equality_kept_witness :
    transferDetOutbound (30 : ℚ) 5 [((9, 2, 7), 445)] 9 2 7 480 480 10 5
      = some (435, 5, 55) := by
  have h := C5_equality_kept (30 : ℚ) 5 [((9, 2, 7), 445)] 9 2 7 480 480 10 5 445
    (by decide) (by norm_num)
  rw [h]; norm_num

/-- C2: the push contract of the label-stop queue: an absent or invalid stop
is (re)inserted and marked valid with the incoming label; a valid stop with a
strictly smaller incoming label is reinserted with the remembered label
updated (the stale heap entry remains); a valid stop with an incoming label
at least the remembered one drops the push unchanged. -/
theorem C2_labelStopQueue_push {α : Type} [LinearOrder α] (q : LSQ α) (val : LabelStop α) :
    (alookup q.map val.stop_id = none →
      q.push val = ⟨val :: q.heap, aset q.map val.stop_id ⟨val.label, true, 1⟩,
                    q.valid_count + 1⟩) ∧
    (∀ lc, alookup q.map val.stop_id = some lc → lc.valid = false →
      q.push val = ⟨val :: q.heap, aset q.map val.stop_id ⟨val.label, true, lc.count + 1⟩,
                    q.valid_count + 1⟩) ∧
    (∀ lc, alookup q.map val.stop_id = some lc → lc.valid = true → val.label < lc.label →
      q.push val = ⟨val :: q.heap, aset q.map val.stop_id ⟨val.label, true, lc.count + 1⟩,
                    q.valid_count⟩) ∧
    (∀ lc, alookup q.map val.stop_id = some lc → lc.valid = true → lc.label ≤ val.label →
      q.push val = q) := by
  refine ⟨?_, ?_, ?_, ?_⟩
  · intro hnone
    simp [LSQ.push, hnone]
  · intro lc hsome hinvalid
    simp [LSQ.push, hsome, hinvalid]
  · intro lc hsome hvalid hlt
    simp [LSQ.push, hsome, hvalid, hlt]
  · intro lc hsome hvalid hge
    simp [LSQ.push, hsome, hvalid, not_lt.2 hge]

/-- Witness for C2 at `ℚ`: the four push cases on concrete queues. -/
theorem C2_labelStopQueue_push_witness :
    (LSQ.push ⟨[], [], 0⟩ ⟨(5 : ℚ), 3⟩
       = ⟨[⟨5, 3⟩], [(3, ⟨5, true, 1⟩)], 1⟩) ∧
    (LSQ.push ⟨[⟨5, 3⟩], [(3, ⟨(5 : ℚ), false, 1⟩)], 0⟩ ⟨7, 3⟩
       = ⟨[⟨7, 3⟩, ⟨5, 3⟩], [(3, ⟨7, true, 2⟩)], 1⟩) ∧
    (LSQ.push ⟨[⟨5, 3⟩], [(3, ⟨(5 : ℚ), true, 1⟩)], 1⟩ ⟨4, 3⟩
       = ⟨[⟨4, 3⟩, ⟨5, 3⟩], [(3, ⟨4, true, 2⟩)], 1⟩) ∧
    (LSQ.push ⟨[⟨5, 3⟩], [(3, ⟨(5 : ℚ), true, 1⟩)], 1⟩ ⟨6, 3⟩
       = ⟨[⟨5, 3⟩], [(3, ⟨5, true, 1⟩)], 1⟩) := by
  refine ⟨?_, ?_, ?_, ?_⟩
  · exact (C2_labelStopQueue_push ⟨[], [], 0⟩ ⟨(5 : ℚ), 3⟩).1 (by decide)
  · exact (C2_labelStopQueue_push ⟨[⟨5, 3⟩], [(3, ⟨(5 : ℚ), false, 1⟩)], 0⟩ ⟨7, 3⟩).2.1
      ⟨5, false, 1⟩ (by decide) (by decide)
  · exact (C2_labelStopQueue_push ⟨[⟨5, 3⟩], [(3, ⟨(5 : ℚ), true, 1⟩)], 1⟩ ⟨4, 3⟩).2.2.1
      ⟨5, true, 1⟩ (by decide) (by decide) (by norm_num)
  · exact (C2_labelStopQueue_push ⟨[⟨5, 3⟩], [(3, ⟨(5 : ℚ), true, 1⟩)], 1⟩ ⟨6, 3⟩).2.2.2
      ⟨5, true, 1⟩ (by decide) (by decide) (by norm_num)

theorem hpSumExp_pos (θ : ℝ) (costs : List ℝ) (hne : costs ≠ []) :
    0 < hpSumExp θ costs := by
  apply List.sum_pos
  · intro a ha
    rcases List.mem_map.1 ha with ⟨c, _, rfl⟩
    exact Real.exp_pos _
  · simpa using hne

theorem hpSumExp_cons (θ c : ℝ) (costs : List ℝ) :
    hpSumExp θ (c :: costs) = Real.exp (-1 * θ * c) + hpSumExp θ costs := by
  simp [hpSumExp]

/-- C7: the aggregate hyperpath cost `−(1/θ)·log(Σᵢ exp(−θ·costᵢ))` of a
stop is monotone non-increasing in the number of states: adding one more
state to a (nonempty) list of stop-state costs can only lower or preserve
the aggregate. -/
theorem C7_hyperpath_cost_monotone (θ : ℝ) (hθ : 0 < θ)
    (costs : List ℝ) (hne : costs ≠ []) (c : ℝ) :
    hpAgg θ (c :: costs) ≤ hpAgg θ costs := by
  have hpos : 0 < hpSumExp θ costs := hpSumExp_pos θ costs hne
  have hle : hpSumExp θ costs ≤ hpSumExp θ (c :: costs) := by
    rw [hpSumExp_cons]
    have := (Real.exp_pos (-1 * θ * c)).le
    linarith
  have hlog : Real.log (hpSumExp θ costs) ≤ Real.log (hpSumExp θ (c :: costs)) :=
    Real.log_le_log hpos hle
  have hnonpos : (-1 / θ : ℝ) ≤ 0 := by
    have h1 : (0 : ℝ) < 1 / θ := by positivity
    have h2 : (-1 / θ : ℝ) = -(1 / θ) := by ring
    rw [h2]; linarith
  calc hpAgg θ (c :: costs) = (-1 / θ) * Real.log (hpSumExp θ (c :: costs)) := rfl
    _ ≤ (-1 / θ) * Real.log (hpSumExp θ costs) :=
        mul_le_mul_of_nonpos_left hlog hnonpos
    _ = hpAgg θ costs := rfl

/-- Witness for C7: with `θ = 1` and the cost list `[0]`, adding a state of
cost 0 lowers the aggregate (`−log 2 ≤ −log 1 = 0`). -/
theorem C7_hyperpath_cost_monotone_witness :
    hpAgg 1 [0, 0] ≤ hpAgg 1 [0] :=
  C7_hyperpath_cost_monotone 1 one_pos [0] (by simp) 0

theorem ite_stop_states {c : Prop} [Decidable c] (a b : SearchState) :
    (if c then a else b).stop_states = if c then a.stop_states else b.stop_states := by
  split <;> rfl

theorem ite_hyperpath_ss {c : Prop} [Decidable c] (a b : SearchState) :
    (if c then a else b).hyperpath_ss = if c then a.hyperpath_ss else b.hyperpath_ss := by
  split <;> rfl

theorem windowOK_of_notOutside (outbound : Bool) (TW lder t : ℝ)
    (h : outsideWindowB outbound TW lder t = false) : windowOK outbound TW lder t := by
  cases outbound <;> simpa [outsideWindowB, windowOK, not_lt] using h

theorem windowOK_self (outbound : Bool) {TW : ℝ} (hTW : 0 ≤ TW) (t : ℝ) :
    windowOK outbound TW t t := by
  cases outbound <;> simp [windowOK] <;> linarith

theorem hypAnchorUpdate_of_rejected (outbound : Bool) (TW : ℝ)
    (ss : StopState) (hss0 : HyperpathState) (hTW : 0 ≤ TW)
    (hrej : hypRejected outbound TW ss hss0 = true) :
    hypAnchorUpdate outbound ss hss0 = hss0 := by
  have hwin : hypWindowMoved outbound ss hss0 = false := by
    unfold hypRejected at hrej
    unfold hypWindowMoved
    cases outbound <;> simp_all <;> linarith
  simp [hypAnchorUpdate, hwin]

/-- C1: in hyperpath mode (with the configured `TIME_WINDOW ≥ 0`), every
`addStopState` call preserves the store invariant that each stop state
surviving on a stop lies within `TIME_WINDOW` of that stop's anchor
`latest_dep_earliest_arr`, with the direction-appropriate inequality
(out-of-window states are pruned); it also preserves the companion
synchronisation of the stop-state store with the hyperpath store. -/
theorem C1_addStopState_window_invariant
    (ps : PathSpecification) (TW θ : ℝ) (stop_id : Int) (ss : StopState)
    (st : SearchState) (hhp : ps.hyperpath = true) (hTW : 0 ≤ TW)
    (hsync : st.Synced) (hinv : st.WindowInv ps.outbound TW) :
    (addStopState ps TW θ stop_id ss st).Synced ∧
    (addStopState ps TW θ stop_id ss st).WindowInv ps.outbound TW := by
  rcases halook : alookup st.hyperpath_ss stop_id with _ | hss0
  · -- new stop
    have hempty : alookupD st.stop_states stop_id [] = [] := hsync stop_id halook
    have hSS : (addStopState ps TW θ stop_id ss st).stop_states
        = aset st.stop_states stop_id [ss] := by
      simp [addStopState, hhp, halook, hempty]
    have hHSS : (addStopState ps TW θ stop_id ss st).hyperpath_ss
        = aset st.hyperpath_ss stop_id ⟨ss.deparr_time, ss.trip_id, ss.cost, 0⟩ := by
      simp [addStopState, hhp, halook]
    constructor
    · intro stop' hnone
      rw [hHSS] at hnone
      rw [hSS]
      by_cases hstop : stop' = stop_id
      · rw [hstop, alookup_aset_self] at hnone; cases hnone
      · rw [alookup_aset_ne _ _ _ _ hstop] at hnone
        unfold alookupD
        rw [alookup_aset_ne _ _ _ _ hstop]
        exact hsync stop' hnone
    · intro stop' hss' hlook' σ hσ
      rw [hHSS] at hlook'
      rw [hSS] at hσ
      by_cases hstop : stop' = stop_id
      · subst hstop
        rw [alookup_aset_self] at hlook'
        unfold alookupD at hσ
        rw [alookup_aset_self] at hσ
        simp only [Option.getD_some, List.mem_singleton] at hσ
        subst hσ
        cases hlook'
        exact windowOK_self ps.outbound hTW _
      · rw [alookup_aset_ne _ _ _ _ hstop] at hlook'
        unfold alookupD at hσ
        rw [alookup_aset_ne _ _ _ _ hstop] at hσ
        exact hinv stop' hss' hlook' σ hσ
  · -- existing stop
    by_cases hrej : hypRejected ps.outbound TW ss hss0 = true
    · -- rejected: with TW ≥ 0 the anchor cannot move, and nothing else changes
      have hanchor : hypAnchorUpdate ps.outbound ss hss0 = hss0 :=
        hypAnchorUpdate_of_rejected ps.outbound TW ss hss0 hTW hrej
      have hSS : (addStopState ps TW θ stop_id ss st).stop_states = st.stop_states := by
        simp [addStopState, hhp, halook, hrej]
      have hHSS : (addStopState ps TW θ stop_id ss st).hyperpath_ss
          = aset st.hyperpath_ss stop_id hss0 := by
        simp [addStopState, hhp, halook, hrej, hanchor]
      constructor
      · intro stop' hnone
        rw [hHSS] at hnone
        rw [hSS]
        by_cases hstop : stop' = stop_id
        · rw [hstop, alookup_aset_self] at hnone; cases hnone
        · rw [alookup_aset_ne _ _ _ _ hstop] at hnone
          exact hsync stop' hnone
      · intro stop' hss' hlook' σ hσ
        rw [hHSS] at hlook'
        rw [hSS] at hσ
        by_cases hstop : stop' = stop_id
        · subst hstop
          rw [alookup_aset_self] at hlook'
          cases hlook'
          exact hinv stop' hss0 halook σ hσ
        · rw [alookup_aset_ne _ _ _ _ hstop] at hlook'
          exact hinv stop' hss' hlook' σ hσ
    · -- accepted: the states list is pruned against the (possibly updated) anchor
      have hrejF : hypRejected ps.outbound TW ss hss0 = false := by
        simpa using hrej
      have hSS : (addStopState ps TW θ stop_id ss st).stop_states
          = aset st.stop_states stop_id
              (hypFinalStates ps.outbound TW ss (hypAnchorUpdate ps.outbound ss hss0)
                (alookupD st.stop_states stop_id [])) := by
        simp [addStopState, hhp, halook, hrejF, ite_stop_states]
      have hHSS : ∃ h2 : HyperpathState,
          (addStopState ps TW θ stop_id ss st).hyperpath_ss
            = aset st.hyperpath_ss stop_id h2 ∧
          h2.latest_dep_earliest_arr
            = (hypAnchorUpdate ps.outbound ss hss0).latest_dep_earliest_arr := by
        refine ⟨if decide (|hpAgg θ ((hypFinalStates ps.outbound TW ss
              (hypAnchorUpdate ps.outbound ss hss0)
              (alookupD st.stop_states stop_id [])).map StopState.cost)
              - (hypAnchorUpdate ps.outbound ss hss0).hyperpath_cost| > 0.0001) = true
            then { hypAnchorUpdate ps.outbound ss hss0 with
                   hyperpath_cost := hpAgg θ ((hypFinalStates ps.outbound TW ss
                     (hypAnchorUpdate ps.outbound ss hss0)
                     (alookupD st.stop_states stop_id [])).map StopState.cost) }
            else hypAnchorUpdate ps.outbound ss hss0, ?_, ?_⟩
        · simp [addStopState, hhp, halook, hrejF, ite_hyperpath_ss]
        · split <;> rfl
      have hss_ok : windowOK ps.outbound TW
          (hypAnchorUpdate ps.outbound ss hss0).latest_dep_earliest_arr ss.deparr_time := by
        unfold hypAnchorUpdate
        by_cases hwin : hypWindowMoved ps.outbound ss hss0 = true
        · rw [if_pos hwin]
          exact windowOK_self ps.outbound hTW _
        · rw [if_neg hwin]
          unfold hypRejected at hrejF
          unfold hypWindowMoved at hwin
          cases ho : ps.outbound <;>
            rw [ho] at hrejF hwin <;> simp at hrejF hwin <;>
            simp [windowOK] <;> linarith
      rcases hHSS with ⟨h2, hHSS, hanchor⟩
      constructor
      · intro stop' hnone
        rw [hHSS] at hnone
        rw [hSS]
        by_cases hstop : stop' = stop_id
        · rw [hstop, alookup_aset_self] at hnone; cases hnone
        · rw [alookup_aset_ne _ _ _ _ hstop] at hnone
          unfold alookupD
          rw [alookup_aset_ne _ _ _ _ hstop]
          exact hsync stop' hnone
      · intro stop' hss' hlook' σ hσ
        rw [hHSS] at hlook'
        rw [hSS] at hσ
        by_cases hstop : stop' = stop_id
        · subst hstop
          rw [alookup_aset_self] at hlook'
          cases hlook'
          unfold alookupD at hσ
          rw [alookup_aset_self] at hσ
          simp only [Option.getD_some] at hσ
          rw [hanchor]
          simp only [hypFinalStates, alookupD] at hσ
          have hmem : σ ∈ hypSurvivors ps.outbound TW
              (hypAnchorUpdate ps.outbound ss hss0).latest_dep_earliest_arr
              (hypSubstituted ((alookup st.stop_states stop').getD []) ss) ∨ σ = ss := by
            by_cases hfound : hypFound ((alookup st.stop_states stop').getD []) ss = true
            · rw [if_pos hfound] at hσ; exact Or.inl hσ
            · rw [if_neg hfound] at hσ
              rcases List.mem_append.1 hσ with h | h
              · exact Or.inl h
              · exact Or.inr (List.mem_singleton.1 h)
          rcases hmem with h | h
          · unfold hypSurvivors at h
            have := List.of_mem_filter h
            exact windowOK_of_notOutside _ _ _ _ (by simpa using this)
          · rw [h]; exact hss_ok
        · rw [alookup_aset_ne _ _ _ _ hstop] at hlook'
          unfold alookupD at hσ
          rw [alookup_aset_ne _ _ _ _ hstop] at hσ
          exact hinv stop' hss' hlook' σ hσ

/-- Witness for C1: a concrete hyperpath outbound call on the empty store
(all hypotheses discharged concretely) preserves the window invariant. -/
theorem C1_addStopState_window_invariant_witness :
    (addStopState ⟨0, 0, 0, true, 1, 2, true, 480, "uc", "walk", "transit", "walk"⟩
      30 1 5 dummySS ⟨[], LSQ.init, []⟩).Synced ∧
    (addStopState ⟨0, 0, 0, true, 1, 2, true, 480, "uc", "walk", "transit", "walk"⟩
      30 1 5 dummySS ⟨[], LSQ.init, []⟩).WindowInv true 30 :=
  C1_addStopState_window_invariant
    ⟨0, 0, 0, true, 1, 2, true, 480, "uc", "walk", "transit", "walk"⟩
    30 1 5 dummySS ⟨[], LSQ.init, []⟩ rfl (by norm_num)
    (fun _ _ => rfl) (fun _ _ h => nomatch h)

theorem foldl_fixed {β γ : Type} (f : β → γ → β) (b : β) :
    ∀ l : List γ, (∀ x ∈ l, f b x = b) → l.foldl f b = b := by
  intro l
  induction l with
  | nil => intro _; rfl
  | cons hd tl ih =>
      intro h
      rw [List.foldl_cons, h hd (List.mem_cons_self hd tl)]
      exact ih (fun x hx => h x (List.mem_cons_of_mem hd hx))

/-- C9: `findPath` is reproducible: its result — output path, path cost, and
the performance counters — does not depend on the state of the process-wide
random number generator at entry (the only implicit input besides the tables
and the `PathSpecification`): the deterministic regime never draws from it,
and the hyperpath regime re-seeds it with `path_id` before sampling.  Hence
two runs with identical tables, configuration and `PathSpecification`
(including `path_id`) produce identical output paths and path costs. -/
theorem C9_findPath_reproducible {R : Type} (pf : PathFinderData)
    (ps : PathSpecification) (rng : RngModel R) (r0 r1 : R) (fuel : Nat) :
    findPath pf ps rng r0 fuel = findPath pf ps rng r1 fuel := rfl

/-- C8: when the anchor TAZ has no access/egress links, or no weights are
configured for the required user class and access/egress demand mode, the
seeding fails and `findPath` yields the empty path (length 0) with the
caller-initialised zero cost.  The side hypothesis `hnoself` states the
well-formedness fact that the opposite TAZ's access links do not point at
that TAZ itself (on such degenerate data the source would read `[0]` of an
empty vector in `finalizeTazState`). -/
theorem C8_seed_failure_empty_path {R : Type} (pf : PathFinderData)
    (ps : PathSpecification) (rng : RngModel R) (r0 : R) (fuel : Nat)
    (hseed :
      alookup pf.taz_access_links
        (if ps.outbound then ps.destination_taz_id else ps.origin_taz_id) = none ∨
      alookup pf.weight_lookup
        ⟨ps.user_class, if ps.outbound then MODE_EGRESS else MODE_ACCESS,
         if ps.outbound then ps.egress_mode else ps.access_mode⟩ = none)
    (hnoself : ∀ sl, alookup pf.taz_access_links
        (if ps.outbound then ps.origin_taz_id else ps.destination_taz_id) = some sl →
      ∀ ml ∈ sl, ∀ link ∈ ml.2,
        link.1 ≠ (if ps.outbound then ps.origin_taz_id else ps.destination_taz_id)) :
    (findPath pf ps rng r0 fuel).1 = [] ∧ (findPath pf ps rng r0 fuel).2.1.cost = 0 := by
  have h1 : initializeStopStates pf ps ⟨[], LSQ.init, []⟩ = (false, ⟨[], LSQ.init, []⟩) := by
    rcases hseed with h | h
    · simp [initializeStopStates, h]
    · rcases hl : alookup pf.taz_access_links
          (if ps.outbound then ps.destination_taz_id else ps.origin_taz_id) with _ | sl
      · simp [initializeStopStates, hl]
      · simp [initializeStopStates, hl, h]
  have h2 : labelStops pf ps fuel ⟨[], LSQ.init, []⟩ = (1, 0, ⟨[], LSQ.init, []⟩) := by
    cases fuel <;> simp [labelStops, labelStopsLoop, LSQ.isEmpty, LSQ.init]
  have h3 : finalizeTazState pf ps 1 ⟨[], LSQ.init, []⟩
      = ⟨[((if ps.outbound then ps.origin_taz_id else ps.destination_taz_id), [])],
         LSQ.init, []⟩ := by
    unfold finalizeTazState
    rcases hl : alookup pf.taz_access_links
        (if ps.outbound then ps.origin_taz_id else ps.destination_taz_id) with _ | sl
    · simp [alookupD, alookup, aset, hl]
    · rcases hw : alookup pf.weight_lookup
          ⟨ps.user_class, if ps.outbound then MODE_ACCESS else MODE_EGRESS,
           if ps.outbound then ps.access_mode else ps.egress_mode⟩ with _ | s2w
      · simp [alookupD, alookup, aset, hl, hw]
      · simp only [alookupD, alookup, aset, Option.getD_none, hl, hw]
        apply foldl_fixed
        intro m hm
        rcases hml : alookup sl m.1 with _ | links
        · simp [hml]
        · simp only [hml]
          apply foldl_fixed
          intro link hlink
          have hne : link.1 ≠ (if ps.outbound then ps.origin_taz_id else ps.destination_taz_id) := by
            apply hnoself sl hl ⟨m.1, links⟩ _ link hlink
            have : (m.1, links) ∈ sl := by
              exact alookup_mem sl m.1 links hml
            exact this
          have hlookup : alookup
              [((if ps.outbound then ps.origin_taz_id else ps.destination_taz_id),
                ([] : List StopState))] link.1 = none := by
            simp [alookup, Ne.symm hne]
          simp [hlookup]
  have h4 : getFoundPath pf ps rng r0
      ⟨[((if ps.outbound then ps.origin_taz_id else ps.destination_taz_id), [])],
        LSQ.init, []⟩ fuel [] ⟨0, 0, false, 0, 0⟩
      = (false, [], ⟨0, 0, false, 0, 0⟩) := by
    simp [getFoundPath, alookupD, alookup]
  simp [findPath, h1, h2, h3, h4]

/-- Witness for C8: on a network with no access/egress links at all, a
concrete `findPath` request returns the empty path with zero cost. -/
theorem C8_seed_failure_empty_path_witness :
    (findPath ⟨30, 5, 10, 0.2, 20, 2147483647, 3, [], [], [], [], [], [], [], []⟩
      ⟨1, 2, 3, true, 10, 20, true, 480, "uc", "walk", "transit", "walk"⟩
      ⟨fun _ => (), fun _ => (0, ())⟩ () 5).1 = [] ∧
    (findPath ⟨30, 5, 10, 0.2, 20, 2147483647, 3, [], [], [], [], [], [], [], []⟩
      ⟨1, 2, 3, true, 10, 20, true, 480, "uc", "walk", "transit", "walk"⟩
      ⟨fun _ => (), fun _ => (0, ())⟩ () 5).2.1.cost = 0 :=
  C8_seed_failure_empty_path
    ⟨30, 5, 10, 0.2, 20, 2147483647, 3, [], [], [], [], [], [], [], []⟩
    ⟨1, 2, 3, true, 10, 20, true, 480, "uc", "walk", "transit", "walk"⟩
    ⟨fun _ => (), fun _ => (0, ())⟩ () 5 (Or.inl rfl) (fun _ h => nomatch h)

theorem heapTop_mem {α : Type} [LinearOrder α] :
    ∀ (l : List (LabelStop α)) (m : LabelStop α), heapTop l = some m → m ∈ l := by
  intro l
  induction l with
  | nil => intro m h; cases h
  | cons e rest ih =>
      intro m h
      unfold heapTop at h
      rcases hr : heapTop rest with _ | m' <;> rw [hr] at h <;> injection h with h <;> subst h
      · exact List.mem_cons_self _ _
      · by_cases hb : lsBefore e m' = true
        · rw [if_pos hb]; exact List.mem_cons_self _ _
        · rw [if_neg hb]; exact List.mem_cons_of_mem _ (ih m' hr)

theorem heapTop_eq_none {α : Type} [LinearOrder α] :
    ∀ l : List (LabelStop α), heapTop l = none → l = [] := by
  intro l h
  cases l with
  | nil => rfl
  | cons e rest =>
      unfold heapTop at h
      rcases hr : heapTop rest with _ | m' <;> rw [hr] at h <;> cases h

theorem removeOne_length {α : Type} [DecidableEq α] :
    ∀ (l : List (LabelStop α)) (x : LabelStop α), x ∈ l →
      (removeOne l x).length + 1 = l.length := by
  intro l
  induction l with
  | nil => intro x hx; cases hx
  | cons e rest ih =>
      intro x hx
      by_cases he : e = x
      · simp [removeOne, he]
      · have hx' : x ∈ rest := by
          rcases List.mem_cons.1 hx with h | h
          · exact absurd h.symm he
          · exact h
        simp [removeOne, he, ih x hx']

theorem removeOne_subset {α : Type} [DecidableEq α] :
    ∀ (l : List (LabelStop α)) (x e' : LabelStop α), e' ∈ removeOne l x → e' ∈ l := by
  intro l
  induction l with
  | nil => intro x e' h; cases h
  | cons e rest ih =>
      intro x e' h
      by_cases he : e = x
      · rw [removeOne, if_pos he] at h
        exact List.mem_cons_of_mem _ h
      · rw [removeOne, if_neg he] at h
        rcases List.mem_cons.1 h with h | h
        · exact h ▸ List.mem_cons_self _ _
        · exact List.mem_cons_of_mem _ (ih x e' h)

theorem mem_removeOne_of_ne {α : Type} [DecidableEq α] :
    ∀ (l : List (LabelStop α)) (x e' : LabelStop α), e' ∈ l → e' ≠ x →
      e' ∈ removeOne l x := by
  intro l
  induction l with
  | nil => intro x e' h _; cases h
  | cons e rest ih =>
      intro x e' h hne
      by_cases he : e = x
      · rw [removeOne, if_pos he]
        rcases List.mem_cons.1 h with h | h
        · exact absurd (h.trans he) hne
        · exact h
      · rw [removeOne, if_neg he]
        rcases List.mem_cons.1 h with h | h
        · exact h ▸ List.mem_cons_self _ _
        · exact List.mem_cons_of_mem _ (ih x e' h hne)

theorem countStop_cons {α : Type} [DecidableEq α] (e : LabelStop α)
    (l : List (LabelStop α)) (s : Int) :
    countStop (e :: l) s = countStop l s + (if e.stop_id = s then 1 else 0) := by
  by_cases he : e.stop_id = s
  · simp [countStop, List.filter_cons, he]
  · simp [countStop, List.filter_cons, he]

theorem countStop_pos {α : Type} [DecidableEq α] (l : List (LabelStop α))
    (x : LabelStop α) (hx : x ∈ l) : 0 < countStop l x.stop_id := by
  have hmem : x ∈ l.filter (fun e => e.stop_id = x.stop_id) :=
    List.mem_filter.2 ⟨hx, by simp⟩
  have hlen := List.length_pos_of_mem hmem
  unfold countStop
  exact_mod_cast hlen

theorem countStop_removeOne_self {α : Type} [DecidableEq α] :
    ∀ (l : List (LabelStop α)) (x : LabelStop α), x ∈ l →
      countStop (removeOne l x) x.stop_id + 1 = countStop l x.stop_id := by
  intro l
  induction l with
  | nil => intro x hx; cases hx
  | cons e rest ih =>
      intro x hx
      by_cases he : e = x
      · rw [removeOne, if_pos he, countStop_cons, he]
        simp
      · have hx' : x ∈ rest := by
          rcases List.mem_cons.1 hx with h | h
          · exact absurd h.symm he
          · exact h
        rw [removeOne, if_neg he, countStop_cons, countStop_cons]
        have := ih x hx'
        omega

theorem countStop_removeOne_ne {α : Type} [DecidableEq α] :
    ∀ (l : List (LabelStop α)) (x : LabelStop α) (s : Int), s ≠ x.stop_id →
      countStop (removeOne l x) s = countStop l s := by
  intro l
  induction l with
  | nil => intro x s _; rfl
  | cons e rest ih =>
      intro x s hs
      by_cases he : e = x
      · rw [removeOne, if_pos he, countStop_cons]
        have : ¬(e.stop_id = s) := by rw [he]; exact fun h => hs h.symm
        simp [this]
      · rw [removeOne, if_neg he, countStop_cons, countStop_cons, ih x s hs]

theorem countValid_cons {α : Type} (kv : Int × LabelCount α) (m : List (Int × LabelCount α)) :
    countValid (kv :: m) = countValid m + (if kv.2.valid then 1 else 0) := by
  by_cases hv : kv.2.valid
  · simp [countValid, List.filter_cons, hv]
  · simp [countValid, List.filter_cons, hv]

theorem countValid_aset {α : Type} :
    ∀ (m : List (Int × LabelCount α)) (k : Int) (lc v : LabelCount α),
      alookup m k = some lc →
      countValid (aset m k v) + (if lc.valid then 1 else 0)
        = countValid m + (if v.valid then 1 else 0) := by
  intro m
  induction m with
  | nil => intro k lc v h; cases h
  | cons hd tl ih =>
      intro k lc v h
      unfold alookup at h
      by_cases hk : hd.1 = k
      · rw [if_pos hk] at h
        injection h with h
        rw [aset, if_pos hk, countValid_cons, countValid_cons, h]
        ring
      · rw [if_neg hk] at h
        rw [aset, if_neg hk, countValid_cons, countValid_cons]
        have := ih k lc v h
        linarith

theorem countValid_aset_new {α : Type} :
    ∀ (m : List (Int × LabelCount α)) (k : Int) (v : LabelCount α),
      alookup m k = none →
      countValid (aset m k v) = countValid m + (if v.valid then 1 else 0) := by
  intro m
  induction m with
  | nil => intro k v _; simp [aset, countValid, List.filter_cons]; by_cases hv : v.valid <;> simp [hv, countValid]
  | cons hd tl ih =>
      intro k v h
      unfold alookup at h
      by_cases hk : hd.1 = k
      · rw [if_pos hk] at h; cases h
      · rw [if_neg hk] at h
        rw [aset, if_neg hk, countValid_cons, countValid_cons, ih k v h]
        ring

theorem aset_keys_mem {κ β : Type} [DecidableEq κ] :
    ∀ (m : List (κ × β)) (k : κ) (v : β) (x : κ),
      x ∈ (aset m k v).map Prod.fst → x ∈ m.map Prod.fst ∨ x = k := by
  intro m
  induction m with
  | nil => intro k v x h; simp [aset] at h; exact Or.inr h
  | cons hd tl ih =>
      intro k v x h
      by_cases hk : hd.1 = k
      · rw [aset, if_pos hk] at h
        simp only [List.map_cons, List.mem_cons] at h
        rcases h with h | h
        · exact Or.inr h
        · exact Or.inl (by simp only [List.map_cons, List.mem_cons]; exact Or.inr h)
      · rw [aset, if_neg hk] at h
        simp only [List.map_cons, List.mem_cons] at h
        rcases h with h | h
        · exact Or.inl (by simp only [List.map_cons, List.mem_cons]; exact Or.inl h)
        · rcases ih k v x h with h2 | h2
          · exact Or.inl (by simp only [List.map_cons, List.mem_cons]; exact Or.inr h2)
          · exact Or.inr h2

theorem aset_keys_nodup {κ β : Type} [DecidableEq κ] :
    ∀ (m : List (κ × β)) (k : κ) (v : β),
      (m.map Prod.fst).Nodup → ((aset m k v).map Prod.fst).Nodup := by
  intro m
  induction m with
  | nil => intro k v _; simp [aset]
  | cons hd tl ih =>
      intro k v hnd
      simp only [List.map_cons, List.nodup_cons] at hnd
      by_cases hk : hd.1 = k
      · rw [aset, if_pos hk]
        simp only [List.map_cons, List.nodup_cons]
        exact ⟨by rw [← hk]; exact hnd.1, hnd.2⟩
      · rw [aset, if_neg hk]
        simp only [List.map_cons, List.nodup_cons]
        refine ⟨?_, ih k v hnd.2⟩
        intro hmem
        rcases aset_keys_mem tl k v hd.1 hmem with h | h
        · exact hnd.1 h
        · exact hk h

theorem alookup_aset_isSome {κ β : Type} [DecidableEq κ]
    (m : List (κ × β)) (k : κ) (v : β) (s : κ) (h : (alookup m s).isSome) :
    (alookup (aset m k v) s).isSome := by
  by_cases hk : s = k
  · subst hk; rw [alookup_aset_self]; rfl
  · rw [alookup_aset_ne _ _ _ _ hk]; exact h

theorem alookup_of_mem_nodup {κ β : Type} [DecidableEq κ] :
    ∀ (m : List (κ × β)) (k : κ) (v : β),
      (m.map Prod.fst).Nodup → (k, v) ∈ m → alookup m k = some v := by
  intro m
  induction m with
  | nil => intro k v _ h; cases h
  | cons hd tl ih =>
      intro k v hnd hmem
      simp only [List.map_cons, List.nodup_cons] at hnd
      rcases List.mem_cons.1 hmem with h | h
      · rw [← h]
        simp [alookup]
      · have hk : hd.1 ≠ k := by
          intro he
          apply hnd.1
          rw [he]
          exact List.mem_map_of_mem Prod.fst h
        rw [alookup, if_neg hk]
        exact ih k v hnd.2 h

theorem exists_valid_of_countValid_pos {α : Type} (m : List (Int × LabelCount α))
    (h : 0 < countValid m) : ∃ kv, kv ∈ m ∧ kv.2.valid = true := by
  unfold countValid at h
  have hlen : 0 < (m.filter (fun kv => kv.2.valid)).length := by exact_mod_cast h
  rcases List.exists_mem_of_length_pos hlen with ⟨kv, hkv⟩
  rcases List.mem_filter.1 hkv with ⟨h1, h2⟩
  exact ⟨kv, h1, h2⟩

theorem countStop_eq_zero_of_absent {α : Type} [LinearOrder α]
    (heap : List (LabelStop α)) (m : List (Int × LabelCount α))
    (hheap : ∀ e ∈ heap, (alookup m e.stop_id).isSome)
    (s : Int) (hs : alookup m s = none) : countStop heap s = 0 := by
  unfold countStop
  have hfil : heap.filter (fun e => e.stop_id = s) = [] := by
    rw [List.filter_eq_nil_iff]
    intro e he
    simp only [decide_eq_true_eq]
    intro hes
    have hsome := hheap e he
    rw [hes, hs] at hsome
    cases hsome
  rw [hfil]
  rfl

theorem push_Inv {α : Type} [LinearOrder α] (q : LSQ α) (val : LabelStop α)
    (h : q.Inv) : (q.push val).Inv := by
  obtain ⟨hnd, hheap, hcount, hvc⟩ := h
  rcases hl : alookup q.map val.stop_id with _ | lc
  · -- the stop is not in here
    have hpush : q.push val
        = ⟨val :: q.heap, aset q.map val.stop_id ⟨val.label, true, 1⟩,
           q.valid_count + 1⟩ := by
      simp [LSQ.push, hl]
    rw [hpush]
    have hzero : countStop q.heap val.stop_id = 0 :=
      countStop_eq_zero_of_absent q.heap q.map hheap val.stop_id hl
    refine ⟨aset_keys_nodup _ _ _ hnd, ?_, ?_, ?_⟩
    · intro e he
      rcases List.mem_cons.1 he with h | h
      · rw [h, alookup_aset_self]; rfl
      · exact alookup_aset_isSome _ _ _ _ (hheap e h)
    · intro s lc' hs
      by_cases hsk : s = val.stop_id
      · subst hsk
        rw [alookup_aset_self] at hs
        injection hs with hs
        subst hs
        refine ⟨?_, ?_⟩
        · rw [countStop_cons]
          simp [hzero]
        · intro _
          have heta : LabelStop.mk val.label val.stop_id = val := rfl
          rw [heta]
          exact List.mem_cons_self _ _
      · rw [alookup_aset_ne _ _ _ _ hsk] at hs
        obtain ⟨hc, hm⟩ := hcount s lc' hs
        refine ⟨?_, ?_⟩
        · rw [countStop_cons, ← hc]
          have : ¬(val.stop_id = s) := fun hh => hsk hh.symm
          simp [this]
        · intro hv
          exact List.mem_cons_of_mem _ (hm hv)
    · show q.valid_count + 1 = countValid (aset q.map val.stop_id ⟨val.label, true, 1⟩)
      rw [countValid_aset_new _ _ _ hl, ← hvc]
      simp
  · by_cases hval : lc.valid = false
    · -- not valid: reinsert and revalidate
      have hpush : q.push val
          = ⟨val :: q.heap, aset q.map val.stop_id ⟨val.label, true, lc.count + 1⟩,
             q.valid_count + 1⟩ := by
        simp [LSQ.push, hl, hval]
      rw [hpush]
      refine ⟨aset_keys_nodup _ _ _ hnd, ?_, ?_, ?_⟩
      · intro e he
        rcases List.mem_cons.1 he with h | h
        · rw [h, alookup_aset_self]; rfl
        · exact alookup_aset_isSome _ _ _ _ (hheap e h)
      · intro s lc' hs
        by_cases hsk : s = val.stop_id
        · subst hsk
          rw [alookup_aset_self] at hs
          injection hs with hs
          subst hs
          obtain ⟨hc, _⟩ := hcount val.stop_id lc hl
          refine ⟨?_, ?_⟩
          · rw [countStop_cons, ← hc]
            simp
          · intro _
            have heta : LabelStop.mk val.label val.stop_id = val := rfl
            rw [heta]
            exact List.mem_cons_self _ _
        · rw [alookup_aset_ne _ _ _ _ hsk] at hs
          obtain ⟨hc, hm⟩ := hcount s lc' hs
          refine ⟨?_, ?_⟩
          · rw [countStop_cons, ← hc]
            have : ¬(val.stop_id = s) := fun hh => hsk hh.symm
            simp [this]
          · intro hv
            exact List.mem_cons_of_mem _ (hm hv)
      · show q.valid_count + 1
            = countValid (aset q.map val.stop_id ⟨val.label, true, lc.count + 1⟩)
        have hca := countValid_aset q.map val.stop_id lc ⟨val.label, true, lc.count + 1⟩ hl
        rw [hval] at hca
        simp only [if_false, add_zero, if_true] at hca
        simp at hca
        linarith [hvc, hca]
    · have hvalT : lc.valid = true := by
        revert hval; cases lc.valid <;> simp
      by_cases hlt : val.label < lc.label
      · -- valid with a bigger remembered label: insert and update
        have hpush : q.push val
            = ⟨val :: q.heap, aset q.map val.stop_id ⟨val.label, lc.valid, lc.count + 1⟩,
               q.valid_count⟩ := by
          simp [LSQ.push, hl, hval, hlt]
        rw [hpush]
        refine ⟨aset_keys_nodup _ _ _ hnd, ?_, ?_, ?_⟩
        · intro e he
          rcases List.mem_cons.1 he with h | h
          · rw [h, alookup_aset_self]; rfl
          · exact alookup_aset_isSome _ _ _ _ (hheap e h)
        · intro s lc' hs
          by_cases hsk : s = val.stop_id
          · subst hsk
            rw [alookup_aset_self] at hs
            injection hs with hs
            subst hs
            obtain ⟨hc, _⟩ := hcount val.stop_id lc hl
            refine ⟨?_, ?_⟩
            · rw [countStop_cons, ← hc]
              simp
            · intro _
              have heta : LabelStop.mk val.label val.stop_id = val := rfl
              rw [heta]
              exact List.mem_cons_self _ _
          · rw [alookup_aset_ne _ _ _ _ hsk] at hs
            obtain ⟨hc, hm⟩ := hcount s lc' hs
            refine ⟨?_, ?_⟩
            · rw [countStop_cons, ← hc]
              have : ¬(val.stop_id = s) := fun hh => hsk hh.symm
              simp [this]
            · intro hv
              exact List.mem_cons_of_mem _ (hm hv)
        · show q.valid_count
              = countValid (aset q.map val.stop_id ⟨val.label, lc.valid, lc.count + 1⟩)
          have hca := countValid_aset q.map val.stop_id lc
            ⟨val.label, lc.valid, lc.count + 1⟩ hl
          linarith [hvc, hca]
      · -- the label is bigger: don't add it
        have hpush : q.push val = q := by
          simp [LSQ.push, hl, hval, hlt]
        rw [hpush]
        exact ⟨hnd, hheap, hcount, hvc⟩

theorem popStale_Inv {α : Type} [LinearOrder α] (q : LSQ α) (ls : LabelStop α)
    (lc : LabelCount α) (hInv : q.Inv) (hls : ls ∈ q.heap)
    (hlc : alookup q.map ls.stop_id = some lc)
    (hstale : lc.valid = false ∨ ¬lc.label = ls.label) :
    LSQ.Inv ⟨removeOne q.heap ls,
             aset q.map ls.stop_id ⟨lc.label, lc.valid, lc.count - 1⟩,
             q.valid_count⟩ := by
  obtain ⟨hnd, hheap, hcount, hvc⟩ := hInv
  refine ⟨aset_keys_nodup _ _ _ hnd, ?_, ?_, ?_⟩
  · intro e he
    exact alookup_aset_isSome _ _ _ _ (hheap e (removeOne_subset _ _ _ he))
  · intro s lc' hs
    by_cases hsk : s = ls.stop_id
    · subst hsk
      rw [alookup_aset_self] at hs
      injection hs with hs
      subst hs
      obtain ⟨hc, hm⟩ := hcount ls.stop_id lc hlc
      refine ⟨?_, ?_⟩
      · have hrem := countStop_removeOne_self q.heap ls hls
        show lc.count - 1 = countStop (removeOne q.heap ls) ls.stop_id
        omega
      · intro hv
        have hlab : ¬lc.label = ls.label := by
          rcases hstale with h | h
          · rw [h] at hv; cases hv
          · exact h
        apply mem_removeOne_of_ne _ _ _ (hm hv)
        intro he
        exact hlab (congrArg LabelStop.label he)
    · rw [alookup_aset_ne _ _ _ _ hsk] at hs
      obtain ⟨hc, hm⟩ := hcount s lc' hs
      refine ⟨?_, ?_⟩
      · rw [countStop_removeOne_ne q.heap ls s hsk]
        exact hc
      · intro hv
        apply mem_removeOne_of_ne _ _ _ (hm hv)
        intro he
        exact hsk (congrArg LabelStop.stop_id he)
  · have hca := countValid_aset q.map ls.stop_id lc ⟨lc.label, lc.valid, lc.count - 1⟩ hlc
    have hred : ({ label := lc.label, valid := lc.valid, count := lc.count - 1 }
        : LabelCount α).valid = lc.valid := rfl
    rw [hred] at hca
    show q.valid_count
        = countValid (aset q.map ls.stop_id ⟨lc.label, lc.valid, lc.count - 1⟩)
    linarith [hvc, hca]

theorem popReturn_Inv {α : Type} [LinearOrder α] (q : LSQ α) (ls : LabelStop α)
    (lc : LabelCount α) (hInv : q.Inv) (hls : ls ∈ q.heap)
    (hlc : alookup q.map ls.stop_id = some lc) (hv : lc.valid = true) :
    LSQ.Inv ⟨removeOne q.heap ls,
             aset q.map ls.stop_id ⟨lc.label, false, lc.count - 1⟩,
             q.valid_count - 1⟩ := by
  obtain ⟨hnd, hheap, hcount, hvc⟩ := hInv
  refine ⟨aset_keys_nodup _ _ _ hnd, ?_, ?_, ?_⟩
  · intro e he
    exact alookup_aset_isSome _ _ _ _ (hheap e (removeOne_subset _ _ _ he))
  · intro s lc' hs
    by_cases hsk : s = ls.stop_id
    · subst hsk
      rw [alookup_aset_self] at hs
      injection hs with hs
      subst hs
      obtain ⟨hc, _⟩ := hcount ls.stop_id lc hlc
      refine ⟨?_, ?_⟩
      · have hrem := countStop_removeOne_self q.heap ls hls
        show lc.count - 1 = countStop (removeOne q.heap ls) ls.stop_id
        omega
      · intro hfalse
        cases hfalse
    · rw [alookup_aset_ne _ _ _ _ hsk] at hs
      obtain ⟨hc, hm⟩ := hcount s lc' hs
      refine ⟨?_, ?_⟩
      · rw [countStop_removeOne_ne q.heap ls s hsk]
        exact hc
      · intro hv'
        apply mem_removeOne_of_ne _ _ _ (hm hv')
        intro he
        exact hsk (congrArg LabelStop.stop_id he)
  · have hca := countValid_aset q.map ls.stop_id lc ⟨lc.label, false, lc.count - 1⟩ hlc
    have hred : ({ label := lc.label, valid := false, count := lc.count - 1 }
        : LabelCount α).valid = false := rfl
    rw [hred, hv] at hca
    simp at hca
    show q.valid_count - 1
        = countValid (aset q.map ls.stop_id ⟨lc.label, false, lc.count - 1⟩)
    linarith [hvc, hca]

theorem popTopFuel_ok {α : Type} [LinearOrder α] :
    ∀ (fuel : Nat) (q : LSQ α), q.Inv → 0 < q.valid_count → q.heap.length < fuel →
    ∃ ls q', popTopFuel fuel q = .ok ls q' ∧
      (∃ lc, alookup q.map ls.stop_id = some lc ∧ lc.valid = true ∧ lc.label = ls.label) ∧
      (∃ lc', alookup q'.map ls.stop_id = some lc' ∧ lc'.valid = false ∧
        lc'.label = ls.label) ∧
      q'.valid_count = q.valid_count - 1 ∧ q'.Inv := by
  intro fuel
  induction fuel with
  | zero => intro q _ _ hlen; exact absurd hlen (Nat.not_lt_zero _)
  | succ n ih =>
      intro q hInv hpos hlen
      obtain ⟨hnd, hheap, hcount, hvc⟩ := hInv
      obtain ⟨⟨s₀, lc₀⟩, hkv, hv₀⟩ :=
        exists_valid_of_countValid_pos q.map (hvc ▸ hpos)
      have hl₀ : alookup q.map s₀ = some lc₀ := alookup_of_mem_nodup _ _ _ hnd hkv
      have hmem₀ : LabelStop.mk lc₀.label s₀ ∈ q.heap := (hcount s₀ lc₀ hl₀).2 hv₀
      have hne : q.heap ≠ [] := List.ne_nil_of_mem hmem₀
      rcases ht : heapTop q.heap with _ | ls
      · exact absurd (heapTop_eq_none _ ht) hne
      have hlsmem : ls ∈ q.heap := heapTop_mem _ _ ht
      have hsome := hheap ls hlsmem
      rcases hlc : alookup q.map ls.stop_id with _ | lc
      · rw [hlc] at hsome; cases hsome
      have hcpos : 0 < lc.count := (hcount ls.stop_id lc hlc).1 ▸ countStop_pos q.heap ls hlsmem
      have hnc : ¬lc.count ≤ 0 := by omega
      by_cases hvalid : lc.valid = false
      · -- stale (invalid): discard and continue
        have hstep : popTopFuel (n + 1) q = popTopFuel n
            ⟨removeOne q.heap ls,
             aset q.map ls.stop_id ⟨lc.label, lc.valid, lc.count - 1⟩,
             q.valid_count⟩ := by
          simp [popTopFuel, ht, hlc, hnc, hvalid]
        have hInv2 := popStale_Inv q ls lc ⟨hnd, hheap, hcount, hvc⟩ hlsmem hlc (Or.inl hvalid)
        have hlen2 : (removeOne q.heap ls).length < n := by
          have h1 := removeOne_length q.heap ls hlsmem
          omega
        obtain ⟨ls', q', hpop, hq, hq', hvc', hInv'⟩ := ih _ hInv2 hpos hlen2
        refine ⟨ls', q', by rw [hstep]; exact hpop, ?_, hq', hvc', hInv'⟩
        obtain ⟨lc₂, hlc₂, hv₂, hlab₂⟩ := hq
        by_cases hss : ls'.stop_id = ls.stop_id
        · rw [hss, alookup_aset_self] at hlc₂
          injection hlc₂ with h2
          rw [← h2] at hv₂
          rw [hvalid] at hv₂
          cases hv₂
        · rw [alookup_aset_ne _ _ _ _ hss] at hlc₂
          exact ⟨lc₂, hlc₂, hv₂, hlab₂⟩
      · have hvT : lc.valid = true := by revert hvalid; cases lc.valid <;> simp
        by_cases hlab : lc.label = ls.label
        · -- the valid one: return it
          have hstep : popTopFuel (n + 1) q
              = .ok ls ⟨removeOne q.heap ls,
                        aset q.map ls.stop_id ⟨lc.label, false, lc.count - 1⟩,
                        q.valid_count - 1⟩ := by
            simp [popTopFuel, ht, hlc, hnc, hvalid, hlab]
          refine ⟨ls, _, hstep, ⟨lc, hlc, hvT, hlab⟩,
            ⟨⟨lc.label, false, lc.count - 1⟩, alookup_aset_self _ _ _, rfl, hlab⟩, rfl,
            popReturn_Inv q ls lc ⟨hnd, hheap, hcount, hvc⟩ hlsmem hlc hvT⟩
        · -- stale (label mismatch): discard and continue
          have hstep : popTopFuel (n + 1) q = popTopFuel n
              ⟨removeOne q.heap ls,
               aset q.map ls.stop_id ⟨lc.label, lc.valid, lc.count - 1⟩,
               q.valid_count⟩ := by
            simp [popTopFuel, ht, hlc, hnc, hvalid, hlab]
          have hInv2 := popStale_Inv q ls lc ⟨hnd, hheap, hcount, hvc⟩ hlsmem hlc (Or.inr hlab)
          have hlen2 : (removeOne q.heap ls).length < n := by
            have h1 := removeOne_length q.heap ls hlsmem
            omega
          obtain ⟨ls', q', hpop, hq, hq', hvc', hInv'⟩ := ih _ hInv2 hpos hlen2
          refine ⟨ls', q', by rw [hstep]; exact hpop, ?_, hq', hvc', hInv'⟩
          obtain ⟨lc₂, hlc₂, hv₂, hlab₂⟩ := hq
          by_cases hss : ls'.stop_id = ls.stop_id
          · rw [hss, alookup_aset_self] at hlc₂
            injection hlc₂ with h2
            refine ⟨lc, by rw [hss]; exact hlc, hvT, ?_⟩
            rw [← hlab₂, ← h2]
          · rw [alookup_aset_ne _ _ _ _ hss] at hlc₂
            exact ⟨lc₂, hlc₂, hv₂, hlab₂⟩

theorem popTopFuel_inv {α : Type} [LinearOrder α] :
    ∀ (fuel : Nat) (q : LSQ α) (ls : LabelStop α) (q' : LSQ α),
      q.Inv → popTopFuel fuel q = .ok ls q' → q'.Inv := by
  intro fuel
  induction fuel with
  | zero => intro q ls q' _ h; cases h
  | succ n ih =>
      intro q ls q' hInv h
      rcases ht : heapTop q.heap with _ | ls₀
      · simp [popTopFuel, ht] at h
      rcases hlc : alookup q.map ls₀.stop_id with _ | lc
      · simp [popTopFuel, ht, hlc] at h
      by_cases hcnt : lc.count ≤ 0
      · simp [popTopFuel, ht, hlc, hcnt] at h
      · by_cases hvalid : lc.valid = false
        · have hstep : popTopFuel (n + 1) q = popTopFuel n
              ⟨removeOne q.heap ls₀,
               aset q.map ls₀.stop_id ⟨lc.label, lc.valid, lc.count - 1⟩,
               q.valid_count⟩ := by
            simp [popTopFuel, ht, hlc, hcnt, hvalid]
          rw [hstep] at h
          exact ih _ ls q'
            (popStale_Inv q ls₀ lc hInv (heapTop_mem _ _ ht) hlc (Or.inl hvalid)) h
        · have hvT : lc.valid = true := by revert hvalid; cases lc.valid <;> simp
          by_cases hlab : lc.label = ls₀.label
          · have hstep : popTopFuel (n + 1) q
                = .ok ls₀ ⟨removeOne q.heap ls₀,
                           aset q.map ls₀.stop_id ⟨lc.label, false, lc.count - 1⟩,
                           q.valid_count - 1⟩ := by
              simp [popTopFuel, ht, hlc, hcnt, hvalid, hlab]
            rw [hstep] at h
            injection h with h1 h2
            rw [← h2]
            exact popReturn_Inv q ls₀ lc hInv (heapTop_mem _ _ ht) hlc hvT
          · have hstep : popTopFuel (n + 1) q = popTopFuel n
                ⟨removeOne q.heap ls₀,
                 aset q.map ls₀.stop_id ⟨lc.label, lc.valid, lc.count - 1⟩,
                 q.valid_count⟩ := by
              simp [popTopFuel, ht, hlc, hcnt, hvalid, hlab]
            rw [hstep] at h
            exact ih _ ls q'
              (popStale_Inv q ls₀ lc hInv (heapTop_mem _ _ ht) hlc (Or.inr hlab)) h

theorem Reachable_Inv {α : Type} [LinearOrder α] (q : LSQ α)
    (h : q.Reachable) : q.Inv := by
  induction h with
  | init =>
      refine ⟨by simp [LSQ.init], ?_, ?_, rfl⟩
      · intro e he; cases he
      · intro s lc hl; cases hl
  | push q val _ ih => exact push_Inv q val ih
  | pop q q' ls _ hpop ih => exact popTopFuel_inv _ q ls q' ih hpop

/-- C10: from every queue state reachable by pushes and pops in which at
least one valid entry remains (`valid_count_ > 0`), `pop_top` terminates
(returning after finitely many heap removals — the model is total with any
fuel exceeding the heap size), does not throw `LabelStopQueueError` (neither
fatal branch, nor the empty-heap crash, is reached), and returns an entry
whose stop is marked valid with label equal to that stop's remembered label;
on return the stop is marked invalid and the valid count decremented. -/
theorem C10_popTop_total {α : Type} [LinearOrder α] (q : LSQ α)
    (hreach : q.Reachable) (hpos : 0 < q.valid_count) :
    ∃ ls q', q.popTop = .ok ls q' ∧
      (∃ lc, alookup q.map ls.stop_id = some lc ∧ lc.valid = true ∧
        lc.label = ls.label) ∧
      (∃ lc', alookup q'.map ls.stop_id = some lc' ∧ lc'.valid = false ∧
        lc'.label = ls.label) ∧
      q'.valid_count = q.valid_count - 1 := by
  have hInv := Reachable_Inv q hreach
  obtain ⟨ls, q', h1, h2, h3, h4, _⟩ :=
    popTopFuel_ok (q.heap.length + 1) q hInv hpos (Nat.lt_succ_self _)
  exact ⟨ls, q', h1, h2, h3, h4⟩

/-- Witness for C10 at `ℚ`: popping the reachable one-element queue obtained
by a single push succeeds with the pushed entry. -/
theorem C10_popTop_total_witness :
    ∃ ls q', (LSQ.push LSQ.init ⟨(5 : ℚ), 3⟩).popTop = .ok ls q' ∧
      (∃ lc, alookup (LSQ.push LSQ.init ⟨(5 : ℚ), 3⟩).map ls.stop_id = some lc ∧
        lc.valid = true ∧ lc.label = ls.label) ∧
      (∃ lc', alookup q'.map ls.stop_id = some lc' ∧ lc'.valid = false ∧
        lc'.label = ls.label) ∧
      q'.valid_count = (LSQ.push LSQ.init ⟨(5 : ℚ), 3⟩).valid_count - 1 :=
  C10_popTop_total (LSQ.push LSQ.init ⟨(5 : ℚ), 3⟩)
    (LSQ.Reachable.push LSQ.init ⟨(5 : ℚ), 3⟩ LSQ.Reachable.init) (by decide)

end FastTrips
